import Mathlib

/-!
# growl: command dispatcher and cross-compile helper

A shallow embedding of `main.go` of growl (`runCommand`, `crossCompile`, `main`)
and the properties of its specification.

Conventions of the embedding.

* A Go string is the list of its characters (`Str`). The texts `main.go`
  searches for (`%N`, a space, `%`) are ASCII, so on well-formed UTF-8 reading
  a string by characters or by bytes makes no difference to them.
* The process environment is an association list; `os.Setenv` replaces the
  binding of a name, or, where it returns an error (which `main.go` discards),
  leaves the environment as it is; `os.Getenv` reads a variable (the empty
  string when unset).
* Everything the program does to the outside world is recorded, in order, in a
  trace of `Event`s; a run ends in an `Outcome`.
* Whether a subprocess fails is decided by a `World`: a function of the trace
  so far and of the call.
* Code of the repository that `main.go` calls but does not define (`printErr`,
  `printList`, `isNumber`, `initYaml`, `knownOS`, `knownArch`, the
  configuration types) and the libraries (`yaml.Unmarshal`, the flag parser of
  the command-line library) are modelled from the specification or taken as
  parameters; each such place says so.
-/

namespace Growl

/-- A Go string, as the list of its characters. -/
abbrev Str := List Char

/-! ## The `strings` and `fmt` functions used by `main.go` -/

namespace strings

/-- The scan of `strings.ReplaceAll` for a non-empty `old`: `skip` counts the
characters of a match still to be dropped. -/
def ReplaceAux (old new : Str) : Nat → Str → Str
  | _, [] => []
  | skip + 1, _ :: t => ReplaceAux old new skip t
  | 0, c :: t =>
    if old.isPrefixOf (c :: t) then new ++ ReplaceAux old new (old.length - 1) t
    else c :: ReplaceAux old new 0 t

/-- Go `strings.ReplaceAll(s, old, new)`: the non-overlapping occurrences of
`old` in `s`, leftmost first, are replaced by `new`; an empty `old` matches
before every character and at the end. -/
def ReplaceAll (s old new : Str) : Str :=
  if old = [] then new ++ s.flatMap (fun c => c :: new) else ReplaceAux old new 0 s

/-- Go `strings.Split(s, sep)` for a separator of one character, as in
`strings.Split(s, " ")`: the pieces between the separators, empty ones kept. -/
def Split (s : Str) (sep : Char) : List Str :=
  match s with
  | [] => [[]]
  | c :: t =>
    if c = sep then [] :: Split t sep
    else
      match Split t sep with
      | [] => [[c]]
      | w :: ws => (c :: w) :: ws

/-- Go `strings.HasPrefix(s, p)`. -/
def HasPrefix (s p : Str) : Bool := p.isPrefixOf s

/-- Go `strings.Join(elems, sep)`. -/
def Join (elems : List Str) (sep : Str) : Str :=
  match elems with
  | [] => []
  | [e] => e
  | e :: rest => e ++ sep ++ Join rest sep

/-- Go `strings.Trim(s, cutset)` for a cutset of one character, as in
`strings.Trim(ld, " ")`: the leading and trailing runs of it are removed. -/
def Trim (s : Str) (cut : Char) : Str :=
  ((s.dropWhile (fun c => c == cut)).reverse.dropWhile (fun c => c == cut)).reverse

end strings

/-- Go `fmt.Sprintf("%%%d", n)`: a percent sign followed by `n` in decimal. -/
def placeholder (n : Nat) : Str := '%' :: Nat.toDigits 10 n

/-! ## The data model -/

/-- Modelled from the spec: the type of the entries of `cfg.GlobalEnv` and
`command.Env` is declared outside `main.go`; these are the fields `main.go`
reads (a name/value pair). -/
structure EnvVar where
  Name : Str
  Value : Str
  deriving DecidableEq, Inhabited

/-- Modelled from the spec: `GrowlCommand` is declared outside `main.go`; these
are the fields `main.go` reads (name, primary command string, extra command
strings, command-scoped environment entries). -/
structure GrowlCommand where
  Name : Str
  Command : Str
  Extra : List Str
  Env : List EnvVar
  deriving DecidableEq, Inhabited

/-- Modelled from the spec: `GrowlYaml` is declared outside `main.go`; these are
the fields `main.go` reads (optional shell, global environment entries,
commands). -/
structure GrowlYaml where
  Shell : Str
  GlobalEnv : List EnvVar
  Commands : List GrowlCommand
  deriving DecidableEq, Inhabited

/-- The zero value of `GrowlCommand` (`var command GrowlCommand`). -/
def GrowlCommand.zero : GrowlCommand := ⟨[], [], [], []⟩

/-- The process environment: the bindings of the variables that are set. -/
abbrev Env := List (Str × Str)

/-- Go `os.Getenv`: the value of the variable, the empty string when unset. -/
def Getenv (env : Env) (name : Str) : Str := (env.lookup name).getD []

/-- The NUL character. -/
def NUL : Char := Char.ofNat 0

/-- Whether `os.Setenv(name, value)` succeeds: it returns an error for an empty
name, for a name that holds `=` or NUL, and for a value that holds NUL. -/
def setenvOk (name value : Str) : Bool :=
  name != [] && !name.contains '=' && !name.contains NUL && !value.contains NUL

/-- Go `os.Setenv`: the variable now holds `value`; when the call returns an
error nothing is set. -/
def Setenv (env : Env) (name value : Str) : Env :=
  if setenvOk name value then (name, value) :: env.filter (fun p => p.1 != name) else env

/-- A subprocess started with `exec.Command(Path, Args...)` and `Run()`. -/
structure ProcCall where
  /-- The program name given to `exec.Command`. -/
  Path : Str
  /-- The arguments after the program name. -/
  Args : List Str
  /-- The field `SysProcAttr.CmdLine`; empty when not set. -/
  CmdLine : Str
  /-- The environment the subprocess inherits. -/
  Env : Env
  deriving DecidableEq

/-- What the program does to the outside world. -/
inductive Event where
  /-- Text written to standard output (`fmt.Print`, `color`). -/
  | print (text : Str)
  /-- Modelled from the spec: `printList` is defined outside `main.go`; it
  prints the command list it is given. -/
  | printList (cmds : List GrowlCommand)
  /-- The message printed by `printErr`. -/
  | printErr (args : List Str)
  /-- A call of `os.Setenv`. -/
  | setenv (name value : Str)
  /-- A subprocess run to completion. -/
  | run (call : ProcCall)
  /-- Modelled from the spec: `initYaml` is defined outside `main.go`; it
  scaffolds a new configuration file. -/
  | initYaml
  /-- The help output of the command-line library (`cli.ShowAppHelp`). -/
  | showAppHelp
  deriving DecidableEq

/-- How a run ends. -/
inductive Outcome where
  /-- The function returned (with a nil error). -/
  | returned
  /-- The function returned this error. -/
  | failed (err : Str)
  /-- The process was terminated by `printErr`. -/
  | fatal
  /-- A Go run-time panic (index or slice bounds out of range). -/
  | panicked
  deriving DecidableEq

/-- The result of running a part of the program. -/
structure Result where
  trace : List Event
  env : Env
  outcome : Outcome
  deriving DecidableEq

/-- The outside world: given the trace so far and a subprocess call, the error
of `Run()` when the subprocess cannot be started or fails, `none` when it
succeeds. -/
abbrev World := List Event → ProcCall → Option Str

/-- Modelled from the spec: `printErr` is defined outside `main.go`; by the
spec every failure path prints a message and terminates the process with a
non-zero status, so nothing after a call of `printErr` runs. -/
def printErr (tr : List Event) (env : Env) (args : List Str) : Result :=
  ⟨tr ++ [Event.printErr args], env, Outcome.fatal⟩

/-! ## `runCommand` -/

/-- Lines 50-52 of `runCommand`: for each argument after the command name, in
order, every occurrence of `%i` (counting from 1) in the line is replaced by
that argument with `strings.ReplaceAll`. -/
def substitute (cmd : Str) (params : List Str) : Str :=
  params.enum.foldl (fun cmd p => strings.ReplaceAll cmd (placeholder (p.1 + 1)) p.2) cmd

/-- Lines 54-59 of `runCommand`: the words of the line, split at single spaces,
that start with `%` and whose rest `isNumber` accepts. `isNumber` is defined
outside `main.go` and is a parameter. -/
def missingArgs (isNumber : Str → Bool) (cmd : Str) : List Str :=
  (strings.Split cmd ' ').filter
    (fun word => strings.HasPrefix word ['%'] && isNumber (word.drop 1))

/-- Lines 36-44 of `runCommand`: the configured shell, or the default of the
host operating system `goos` (`runtime.GOOS`). -/
def resolveShell (cfg : GrowlYaml) (goos : Str) : Str :=
  if cfg.Shell = [] then
    if goos = "windows".toList then "cmd /C".toList
    else if goos = "linux".toList ∨ goos = "darwin".toList then "bash -c".toList
    else []
  else cfg.Shell

/-- The subprocess of lines 64-68 for the substituted line `cmd`. -/
def shellCall (s0 s1 cmd : Str) (env : Env) : ProcCall :=
  { Path := s0, Args := [], CmdLine := s1 ++ " \"".toList ++ cmd ++ "\"".toList, Env := env }

/-- The loop of lines 49-72 of `runCommand` over the command lines, `tr` being
the trace so far. -/
def runLines (isNumber : Str → Bool) (w : World) (shellArgs : List Str)
    (params : List Str) (env : Env) : List Str → List Event → Result
  | [], tr => ⟨tr, env, Outcome.returned⟩
  | line :: rest, tr =>
    let cmd := substitute line params
    let missing := missingArgs isNumber cmd
    if missing ≠ [] then
      printErr tr env ["Missing argument(s):".toList, strings.Join missing ", ".toList]
    else
      match shellArgs with
      | s0 :: s1 :: _ =>
        let call := shellCall s0 s1 cmd env
        match w tr call with
        | some err => printErr (tr ++ [Event.run call]) env [err]
        | none => runLines isNumber w shellArgs params env rest (tr ++ [Event.run call])
      | _ => ⟨tr, env, Outcome.panicked⟩

/-- The loop `for _, env := range entries { os.Setenv(env.Name, env.Value) }`. -/
def applyEnv (entries : List EnvVar) (env : Env) : Env :=
  entries.foldl (fun e v => Setenv e v.Name v.Value) env

/-- The `os.Setenv` calls of `applyEnv`, in order. -/
def setenvEvents (entries : List EnvVar) : List Event :=
  entries.map (fun v => Event.setenv v.Name v.Value)

/-- Lines 17-23 of `runCommand`: the first command whose name equals `name`,
the zero value when there is none. -/
def lookupCommand (cmds : List GrowlCommand) (name : Str) : GrowlCommand :=
  (cmds.find? (fun cmd => cmd.Name == name)).getD GrowlCommand.zero

/-- Line 48 of `runCommand`: the primary command line, then the extra ones. -/
def commandLines (command : GrowlCommand) : List Str :=
  command.Command :: command.Extra

/-- Lines 29-72 of `runCommand`, once `command` has been looked up. -/
def dispatch (isNumber : Str → Bool) (goos : Str) (w : World) (params : List Str)
    (cfg : GrowlYaml) (command : GrowlCommand) (env : Env) : Result :=
  let env1 := applyEnv command.Env (applyEnv cfg.GlobalEnv env)
  let shellArgs := strings.Split (resolveShell cfg goos) ' '
  runLines isNumber w shellArgs params env1 (commandLines command)
    (setenvEvents cfg.GlobalEnv ++ setenvEvents command.Env)

/-- Go `runCommand(args, cfg, c)` on a host whose `runtime.GOOS` is `goos`, from
the environment `env`. With an empty `args`, `args[0]` is out of range as soon
as the lookup loop has a command to compare. -/
def runCommand (isNumber : Str → Bool) (goos : Str) (w : World) (args : List Str)
    (cfg : GrowlYaml) (env : Env) : Result :=
  match args with
  | [] =>
    if cfg.Commands = [] then
      printErr [Event.printList cfg.Commands] env ["Command not found".toList]
    else ⟨[], env, Outcome.panicked⟩
  | name :: params =>
    let command := lookupCommand cfg.Commands name
    if command.Name = [] then
      printErr [Event.printList cfg.Commands] env ["Command not found".toList]
    else dispatch isNumber goos w params cfg command env

/-! ## `crossCompile` -/

/-- The flags of the `cross` command as `crossCompile` reads them with
`c.String` and `c.Bool`. -/
structure CrossFlags where
  os : Str
  arch : Str
  ldflags : Str
  out : Str
  static : Bool
  noconsole : Bool
  light : Bool
  cgo : Bool
  /-- A command-line argument holds no NUL character. -/
  os_ok : NUL ∉ os
  /-- A command-line argument holds no NUL character. -/
  arch_ok : NUL ∉ arch

/-- Lines 84-94 of `crossCompile`: the linker flags. -/
def linkFlags (f : CrossFlags) : Str :=
  let ld := f.ldflags
  let ld := if f.static then ld ++ " -extldflags=-static".toList else ld
  let ld := if f.light then ld ++ " -w -s".toList else ld
  let ld := if f.noconsole then ld ++ " -H=windowsgui".toList else ld
  strings.Trim ld ' '

/-- Lines 104-110 of `crossCompile`: the output path, read back from the
environment `env` in which `GOOS` and `GOARCH` have been set. -/
def outputPath (f : CrossFlags) (env : Env) : Str :=
  let out := f.out
  let out :=
    if out = [] then
      "bin/".toList ++ Getenv env "GOOS".toList ++ "-".toList ++ Getenv env "GOARCH".toList
    else out
  if Getenv env "GOOS".toList = "windows".toList then out ++ ".exe".toList else out

/-- Go `fmt.Println` of a string. -/
def println (s : Str) : Event := Event.print (s ++ "\n".toList)

/-- Go `crossCompile(c)`: `f` are the flags of `c`, `rest` is `c.Args().Slice()`. -/
def crossCompile (w : World) (f : CrossFlags) (rest : List Str) (env : Env) : Result :=
  let env1 := Setenv env "GOOS".toList f.os
  let env2 := Setenv env1 "GOARCH".toList f.arch
  let ld := linkFlags f
  let env3 := if f.cgo then Setenv env2 "CGO_ENABLED".toList "1".toList else env2
  let out := outputPath f env3
  let tr : List Event :=
    [println "Flags:".toList,
     Event.print "- os ".toList, Event.setenv "GOOS".toList f.os, println f.os,
     Event.print "- arch ".toList, Event.setenv "GOARCH".toList f.arch, println f.arch,
     Event.print "- ldflags ".toList, println ld,
     Event.print "- cgo ".toList, println (if f.cgo then "true".toList else "false".toList)]
    ++ (if f.cgo then [Event.setenv "CGO_ENABLED".toList "1".toList] else [])
    ++ [Event.print "- out ".toList, println out, println "Building...".toList]
  let call : ProcCall :=
    { Path := "go".toList,
      Args := ["build".toList, "-ldflags=".toList ++ ld, "-o=".toList ++ out] ++ rest,
      CmdLine := [], Env := env3 }
  match w tr call with
  | some err => ⟨tr ++ [Event.run call], env3, Outcome.failed err⟩
  | none => ⟨tr ++ [Event.run call], env3, Outcome.returned⟩

/-! ## `main` -/

/-- What `main` takes from outside `main.go`. -/
structure Deps where
  /-- The function `isNumber`, defined outside `main.go`. -/
  isNumber : Str → Bool
  /-- The constant `runtime.GOOS`. -/
  GOOS : Str
  /-- The library call `yaml.Unmarshal(content, &cfg)` on a zero `cfg`: the
  configuration it leaves in `cfg` and its error, if any. -/
  Unmarshal : Str → GrowlYaml × Option Str
  /-- The flag parser of the command-line library for the `cross` command: the
  flag values and the remaining arguments, or its error. -/
  parseFlags : List Str → Except Str (CrossFlags × List Str)
  /-- The list `knownOS`, defined outside `main.go`. -/
  knownOS : List Str
  /-- The list `knownArch`, defined outside `main.go`. -/
  knownArch : List Str

/-- The `UsageText` of the `cross` command (lines 193-197). -/
def crossUsageText : Str :=
  ("growl cross -os [os] -arch [arch] -ldflags \"[ldflags]\" [-static] [-light] [-cgo] -out [output] -noconsole\n" ++
   "growl cross -os [os] -a [arch] -ld \"[ldflags]\" [-s] [-l] [-c] -o [output] -nc\n" ++
   "Default output is bin/$GOOS-$GOARCH\n" ++
   "--noconsole (or -nc) disables the console in windows to use only the GUI (adds -H=windowsgui ldflag). \n" ++
   "You can use growl cross list to list available OS and CPU architectures").toList

/-- The names and usage texts of `c.App.Commands`, in order. -/
def appCommands : List (Str × Str) :=
  [("list".toList, []), ("help".toList, []), ("cross".toList, crossUsageText)]

/-- The `Action` of the `help` command (lines 174-185). -/
def helpAction (args : List Str) (env : Env) : Result :=
  match args with
  | a :: _ =>
    ⟨(appCommands.filter (fun v => v.1 == a)).map (fun v => println v.2), env, Outcome.returned⟩
  | [] => ⟨[Event.showAppHelp], env, Outcome.returned⟩

/-- The `cross list` subcommand (lines 244-254). -/
def crossList (d : Deps) (env : Env) : Result :=
  ⟨[println "Available OS:".toList] ++ d.knownOS.map println ++
    [println "Available CPU architectures:".toList] ++ d.knownArch.map println,
   env, Outcome.returned⟩

/-- The `Action` of the application (lines 146-159): without arguments the
default build, otherwise `runCommand`. -/
def appAction (d : Deps) (w : World) (args : List Str) (cfg : GrowlYaml) (env : Env) : Result :=
  if args.length = 0 then
    let call : ProcCall :=
      { Path := "go".toList, Args := ["run".toList, ".".toList], CmdLine := [], Env := env }
    match w [] call with
    | some err => printErr [Event.run call] env [err]
    | none => ⟨[Event.run call], env, Outcome.returned⟩
  else runCommand d.isNumber d.GOOS w args cfg env

/-- The call `app.Run(os.Args)` of the command-line library for the application
of lines 141-266: the first argument after the program name selects a command
by name or alias, anything else goes to the application's `Action`. -/
def appRun (d : Deps) (w : World) (osArgs : List Str) (cfg : GrowlYaml) (env : Env) : Result :=
  match osArgs.drop 1 with
  | [] => appAction d w [] cfg env
  | a :: rest =>
    if a = "list".toList ∨ a = "l".toList then
      ⟨[Event.printList cfg.Commands], env, Outcome.returned⟩
    else if a = "help".toList ∨ a = "h".toList then helpAction rest env
    else if a = "cross".toList ∨ a = "c".toList then
      match d.parseFlags rest with
      | Except.error err => ⟨[], env, Outcome.failed err⟩
      | Except.ok (f, pos) =>
        if pos.head? = some "list".toList then crossList d env
        else crossCompile w f pos env
    else appAction d w (a :: rest) cfg env

/-- Go `main()`: `osArgs` is `os.Args`, `file` the content of `growl.yaml`
(`none` when the file is absent), `env` the environment of the process. -/
def main (d : Deps) (w : World) (osArgs : List Str) (file : Option Str) (env : Env) : Result :=
  if osArgs.length > 1 ∧ osArgs.tail.head? = some "init".toList then
    if file.isSome then printErr [] env ["Growl.yaml already exists".toList]
    else ⟨[Event.initYaml], env, Outcome.returned⟩
  else
    match file with
    | none => printErr [] env ["Growl.yaml not found. Generate one with growl init".toList]
    | some content =>
      let cfg := (d.Unmarshal content).1
      let r := appRun d w osArgs cfg env
      match r.outcome with
      | Outcome.failed err => printErr r.trace r.env [err]
      | _ => r

/-! ## Notions used to state the properties -/

/-- The subprocesses of a trace, in order. -/
def callsOf (tr : List Event) : List ProcCall :=
  tr.filterMap (fun e => match e with
    | Event.run call => some call
    | _ => none)

/-- The subprocesses a run started, in order. -/
def Result.calls (r : Result) : List ProcCall := callsOf r.trace

/-- The argument number whose placeholder text `%N` begins the text `s`, as an
index into the arguments after the command name (`N - 1`); the longest such
text when several begin there. -/
def placeholderAt (params : List Str) (s : Str) : Option Nat :=
  (List.range params.length).reverse.find? (fun i => (placeholder (i + 1)).isPrefixOf s)

/-- The scan of `substituteSpec`: `skip` counts the characters of a placeholder
still to be dropped. -/
def substituteSpecAux (params : List Str) : Nat → Str → Str
  | _, [] => []
  | skip + 1, _ :: t => substituteSpecAux params skip t
  | 0, c :: t =>
    match placeholderAt params (c :: t) with
    | some i => params.getD i [] ++ substituteSpecAux params ((placeholder (i + 1)).length - 1) t
    | none => c :: substituteSpecAux params 0 t

/-- The substitution as the specification words it: the template with every
placeholder `%N`, `1 ≤ N ≤ params.length`, replaced by the `N`-th argument
after the command name, all at once (text that comes from an argument is not
looked at again). -/
def substituteSpec (params : List Str) (template : Str) : Str :=
  substituteSpecAux params 0 template

/-- The environment `runCommand` applies for `command`: the global entries
first, then the command-scoped ones. -/
def commandEnv (cfg : GrowlYaml) (command : GrowlCommand) (env : Env) : Env :=
  applyEnv command.Env (applyEnv cfg.GlobalEnv env)

/-- The entries whose `os.Setenv` call succeeds. -/
def accepted (entries : List EnvVar) : List EnvVar :=
  entries.filter (fun v => setenvOk v.Name v.Value)

/-- The value of the last entry named `name`, if there is one. -/
def lastValue (entries : List EnvVar) (name : Str) : Option Str :=
  ((entries.filter (fun v => v.Name == name)).getLast?).map (fun v => v.Value)

/-- The subprocess `runCommand` starts for the line `line` of a command when
the shell splits into `s0`, `s1`, ... -/
def lineCall (s0 s1 : Str) (params : List Str) (env : Env) (line : Str) : ProcCall :=
  shellCall s0 s1 (substitute line params) env

/-- The events of running the subprocesses `calls` one after the other. -/
def runEvents (calls : List ProcCall) : List Event := calls.map Event.run

/-- Each of the lines `xs`, run in order by `mk` from the trace `tr`, finds its
subprocess succeeding. -/
def Succeeded (w : World) (tr : List Event) (mk : Str → ProcCall) (xs : List Str) : Prop :=
  ∀ a x b, xs = a ++ x :: b → w (tr ++ runEvents (a.map mk)) (mk x) = none

/-- The message of the missing-argument error of line 61 for the substituted
line `cmd`. -/
def missingMessage (isNumber : Str → Bool) (cmd : Str) : List Str :=
  ["Missing argument(s):".toList, strings.Join (missingArgs isNumber cmd) ", ".toList]

/-- The first decimal digit of `K`; `K` itself when `K ≤ 9`. -/
def leadDigit (K : Nat) : Nat :=
  match Nat.toDigits 10 K with
  | c :: _ => c.toNat - '0'.toNat
  | [] => 0

/-- An `isNumber` for the examples: a non-empty run of decimal digits. -/
def isDecimal (s : Str) : Bool := s != [] && s.all Char.isDigit


/-! ## Lemmas on the string functions -/

theorem ReplaceAux_cons_ne (d : Char) (new : Str) (c : Char) (s : Str) (h : c ≠ '%') :
    strings.ReplaceAux ['%', d] new 0 (c :: s) = c :: strings.ReplaceAux ['%', d] new 0 s := by
  have : ('%' == c) = false := by simpa using fun h' => h h'.symm
  simp [strings.ReplaceAux, List.isPrefixOf, this]

theorem ReplaceAux_append (d : Char) (new a s : Str) (h : '%' ∉ a) :
    strings.ReplaceAux ['%', d] new 0 (a ++ s) = a ++ strings.ReplaceAux ['%', d] new 0 s := by
  induction a with
  | nil => rfl
  | cons c t ih =>
    have hc : c ≠ '%' := fun h' => h (by simp [h'])
    have ht : '%' ∉ t := fun h' => h (by simp [h'])
    simp [ReplaceAux_cons_ne d new c _ hc, ih ht]

theorem ReplaceAux_match (d : Char) (new s : Str) :
    strings.ReplaceAux ['%', d] new 0 ('%' :: d :: s) = new ++ strings.ReplaceAux ['%', d] new 0 s := by
  simp [strings.ReplaceAux, List.isPrefixOf]

theorem ReplaceAux_percent (d : Char) (new s : Str) (h : s.head? ≠ some d) :
    strings.ReplaceAux ['%', d] new 0 ('%' :: s) = '%' :: strings.ReplaceAux ['%', d] new 0 s := by
  cases s with
  | nil => simp [strings.ReplaceAux, List.isPrefixOf]
  | cons c t =>
    have : (d == c) = false := by simpa using fun h' => h (by simp [h'])
    simp [strings.ReplaceAux, List.isPrefixOf, this]


theorem placeholder_digit (i : Nat) (h : i < 9) :
    placeholder (i + 1) = ['%', Nat.digitChar (i + 1)] := by
  interval_cases i <;> rfl

theorem digitChar_ne_percent (i : Nat) (h : i < 9) : Nat.digitChar (i + 1) ≠ '%' := by
  interval_cases i <;> decide

theorem digitChar_inj (i j : Nat) (hi : i < 9) (hj : j < 9)
    (h : Nat.digitChar (i + 1) = Nat.digitChar (j + 1)) : i = j := by
  interval_cases i <;> interval_cases j <;> first | rfl | (exact absurd h (by decide))

theorem placeholderAt_cons_ne (params : List Str) (c : Char) (t : Str) (h : c ≠ '%') :
    placeholderAt params (c :: t) = none := by
  have : ('%' == c) = false := by simpa using fun h' => h h'.symm
  simp [placeholderAt, placeholder, List.isPrefixOf, this]

theorem placeholderAt_single (params : List Str) (c : Char) (h : params.length ≤ 9) :
    placeholderAt params [c] = none := by
  simp only [placeholderAt, List.find?_eq_none, List.mem_reverse, List.mem_range]
  intro i hi
  rw [placeholder_digit i (by omega)]
  simp [List.isPrefixOf]

theorem placeholderAt_hit (params : List Str) (i : Nat) (t : Str) (h : params.length ≤ 9)
    (hi : i < params.length) :
    placeholderAt params ('%' :: Nat.digitChar (i + 1) :: t) = some i := by
  cases hf : placeholderAt params ('%' :: Nat.digitChar (i + 1) :: t) with
  | none =>
    simp only [placeholderAt, List.find?_eq_none, List.mem_reverse, List.mem_range] at hf
    have := hf i hi
    rw [placeholder_digit i (by omega)] at this
    simp [List.isPrefixOf] at this
  | some j =>
    have hj := List.find?_some hf
    have hm := List.mem_of_find?_eq_some hf
    simp only [List.mem_reverse, List.mem_range] at hm
    rw [placeholder_digit j (by omega)] at hj
    simp [List.isPrefixOf] at hj
    rw [digitChar_inj j i (by omega) (by omega) hj]

theorem placeholderAt_miss (params : List Str) (d : Char) (t : Str) (h : params.length ≤ 9)
    (hd : ∀ i, i < params.length → d ≠ Nat.digitChar (i + 1)) :
    placeholderAt params ('%' :: d :: t) = none := by
  simp only [placeholderAt, List.find?_eq_none, List.mem_reverse, List.mem_range]
  intro i hi
  rw [placeholder_digit i (by omega)]
  have := hd i hi
  simp [List.isPrefixOf, Ne.symm this]

theorem specAux_cons_ne (params : List Str) (c : Char) (t : Str) (h : c ≠ '%') :
    substituteSpecAux params 0 (c :: t) = c :: substituteSpecAux params 0 t := by
  simp [substituteSpecAux, placeholderAt_cons_ne params c t h]

theorem specAux_single (params : List Str) (c : Char) (h : params.length ≤ 9) :
    substituteSpecAux params 0 [c] = [c] := by
  simp [substituteSpecAux, placeholderAt_single params c h]

theorem specAux_hit (params : List Str) (i : Nat) (t : Str) (h : params.length ≤ 9)
    (hi : i < params.length) :
    substituteSpecAux params 0 ('%' :: Nat.digitChar (i + 1) :: t)
      = params.getD i [] ++ substituteSpecAux params 0 t := by
  simp [substituteSpecAux, placeholderAt_hit params i t h hi, placeholder_digit i (by omega)]

theorem specAux_miss (params : List Str) (d : Char) (t : Str) (h : params.length ≤ 9)
    (hd : ∀ i, i < params.length → d ≠ Nat.digitChar (i + 1)) :
    substituteSpecAux params 0 ('%' :: d :: t) = '%' :: substituteSpecAux params 0 (d :: t) := by
  simp [substituteSpecAux, placeholderAt_miss params d t h hd]


theorem not_infix_tail (c : Char) (t : Str) (h : ¬ ['%', '%'] <:+: c :: t) :
    ¬ ['%', '%'] <:+: t :=
  fun h' => h (List.infix_cons h')

theorem not_infix_head (d : Char) (t : Str) (h : ¬ ['%', '%'] <:+: '%' :: d :: t) :
    d ≠ '%' := by
  intro hd
  subst hd
  exact h ⟨[], t, rfl⟩

/-- One round of the loop of lines 50-52 turns the simultaneous substitution of
the first arguments into that of one argument more. -/
theorem replace_stage (init : List Str) (a : Str) (hn : init.length < 9)
    (hargs : ∀ x ∈ init, '%' ∉ x) :
    ∀ (n : Nat) (t : Str), t.length ≤ n → ¬ ['%', '%'] <:+: t →
      strings.ReplaceAux ['%', Nat.digitChar (init.length + 1)] a 0
          (substituteSpecAux init 0 t)
        = substituteSpecAux (init ++ [a]) 0 t := by
  have hlen : (init ++ [a]).length ≤ 9 := by simp; omega
  intro n
  induction n with
  | zero =>
    intro t ht _
    have : t = [] := List.length_eq_zero.mp (by omega)
    subst this
    simp [substituteSpecAux, strings.ReplaceAux]
  | succ n ih =>
    intro t ht hinf
    match t, ht, hinf with
    | [], _, _ => simp [substituteSpecAux, strings.ReplaceAux]
    | c :: t1, ht, hinf =>
      have ht1 : t1.length ≤ n := by simpa using ht
      have hinf1 := not_infix_tail c t1 hinf
      by_cases hc : c = '%'
      · subst hc
        match t1, ht1, hinf, hinf1 with
        | [], _, _, _ =>
          rw [specAux_single init _ (by omega), specAux_single _ _ hlen]
          simp [strings.ReplaceAux, List.isPrefixOf]
        | d :: t2, ht1, hinf, hinf1 =>
          have ht2 : t2.length ≤ n := by simp at ht1; omega
          have hinf2 := not_infix_tail d t2 hinf1
          have hd := not_infix_head d t2 hinf
          by_cases hold : ∃ i, i < init.length ∧ d = Nat.digitChar (i + 1)
          · obtain ⟨i, hi, rfl⟩ := hold
            rw [specAux_hit init i t2 (by omega) hi,
              specAux_hit (init ++ [a]) i t2 hlen (by simp; omega)]
            have hmem : init.getD i [] ∈ init := by
              rw [List.getD_eq_getElem _ _ hi]
              exact List.getElem_mem hi
            rw [ReplaceAux_append _ _ _ _ (hargs _ hmem), ih t2 ht2 hinf2]
            congr 1
            simp [List.getD_eq_getElem?_getD, List.getElem?_append_left hi]
          · have hold' : ∀ i, i < init.length → d ≠ Nat.digitChar (i + 1) :=
              fun i hi hdi => hold ⟨i, hi, hdi⟩
            rw [specAux_miss init d t2 (by omega) hold', specAux_cons_ne init d t2 hd]
            by_cases hnew : d = Nat.digitChar (init.length + 1)
            · subst hnew
              rw [ReplaceAux_match, specAux_hit (init ++ [a]) init.length t2 hlen (by simp),
                ih t2 ht2 hinf2]
              simp [List.getD_eq_getElem?_getD]
            · have hall : ∀ i, i < (init ++ [a]).length → d ≠ Nat.digitChar (i + 1) := by
                intro i hi
                simp at hi
                by_cases hi' : i < init.length
                · exact hold' i hi'
                · have : i = init.length := by omega
                  subst this
                  exact hnew
              rw [specAux_miss (init ++ [a]) d t2 hlen hall,
                ReplaceAux_percent _ _ _ (by simpa using fun h => hnew h),
                ← specAux_cons_ne init d t2 hd, ih (d :: t2) ht1 hinf1]
      · rw [specAux_cons_ne init c t1 hc, specAux_cons_ne _ c t1 hc,
          ReplaceAux_cons_ne _ _ _ _ hc, ih t1 ht1 hinf1]

theorem substitute_append (cmd : Str) (init : List Str) (a : Str) :
    substitute cmd (init ++ [a])
      = strings.ReplaceAll (substitute cmd init) (placeholder (init.length + 1)) a := by
  simp [substitute, List.enum, List.enumFrom_append, List.foldl_append]

theorem specAux_nil (t : Str) : substituteSpecAux [] 0 t = t := by
  induction t with
  | nil => rfl
  | cons c t ih => simp [substituteSpecAux, placeholderAt, ih]

/-- With at most nine arguments, none holding a percent sign, and a template
without two percent signs in a row, the loop of `runCommand` computes the
simultaneous substitution. -/
theorem substitute_eq_spec_aux (template : Str) (hinf : ¬ ['%', '%'] <:+: template) :
    ∀ params : List Str, params.length ≤ 9 → (∀ x ∈ params, '%' ∉ x) →
      substitute template params = substituteSpec params template := by
  intro params
  induction params using List.reverseRecOn with
  | nil => intro _ _; simp [substitute, substituteSpec, specAux_nil]
  | append_singleton init a ih =>
    intro hlen hargs
    have hlen' : init.length < 9 := by simp at hlen; omega
    have hargs' : ∀ x ∈ init, '%' ∉ x := fun x hx => hargs x (by simp [hx])
    rw [substitute_append, ih (by omega) hargs', placeholder_digit _ hlen']
    simp only [strings.ReplaceAll, substituteSpec]
    rw [if_neg (by simp)]
    exact replace_stage init a hlen' hargs' template.length template le_rfl hinf


/-! ## Lemmas on traces -/

theorem callsOf_append (a b : List Event) : callsOf (a ++ b) = callsOf a ++ callsOf b := by
  simp [callsOf, List.filterMap_append]

theorem callsOf_runEvents (calls : List ProcCall) : callsOf (runEvents calls) = calls := by
  induction calls with
  | nil => rfl
  | cons c t ih =>
    simp only [callsOf, runEvents, List.map_cons, List.filterMap_cons] at ih ⊢
    rw [ih]

theorem callsOf_setenvEvents (entries : List EnvVar) : callsOf (setenvEvents entries) = [] := by
  induction entries with
  | nil => rfl
  | cons c t ih =>
    simp only [callsOf, setenvEvents, List.map_cons, List.filterMap_cons] at ih ⊢
    rw [ih]

/-! ## The loop over the command lines -/

theorem runLines_nil (isNumber : Str → Bool) (w : World) (shellArgs params : List Str)
    (env : Env) (tr : List Event) :
    runLines isNumber w shellArgs params env [] tr = ⟨tr, env, Outcome.returned⟩ := rfl

theorem runLines_reject (isNumber : Str → Bool) (w : World) (shellArgs params : List Str)
    (env : Env) (line : Str) (rest : List Str) (tr : List Event)
    (h : missingArgs isNumber (substitute line params) ≠ []) :
    runLines isNumber w shellArgs params env (line :: rest) tr
      = printErr tr env (missingMessage isNumber (substitute line params)) := by
  simp [runLines, h, missingMessage]

theorem runLines_fail (isNumber : Str → Bool) (w : World) (s0 s1 : Str) (more params : List Str)
    (env : Env) (line : Str) (rest : List Str) (tr : List Event) (err : Str)
    (h : missingArgs isNumber (substitute line params) = [])
    (hw : w tr (lineCall s0 s1 params env line) = some err) :
    runLines isNumber w (s0 :: s1 :: more) params env (line :: rest) tr
      = printErr (tr ++ [Event.run (lineCall s0 s1 params env line)]) env [err] := by
  simp only [lineCall] at hw
  simp [runLines, h, hw, lineCall]

theorem runLines_ok (isNumber : Str → Bool) (w : World) (s0 s1 : Str) (more params : List Str)
    (env : Env) (line : Str) (rest : List Str) (tr : List Event)
    (h : missingArgs isNumber (substitute line params) = [])
    (hw : w tr (lineCall s0 s1 params env line) = none) :
    runLines isNumber w (s0 :: s1 :: more) params env (line :: rest) tr
      = runLines isNumber w (s0 :: s1 :: more) params env rest
          (tr ++ [Event.run (lineCall s0 s1 params env line)]) := by
  simp only [lineCall] at hw
  simp [runLines, h, hw, lineCall]

theorem runLines_short (isNumber : Str → Bool) (w : World) (shellArgs params : List Str)
    (env : Env) (line : Str) (rest : List Str) (tr : List Event)
    (h : missingArgs isNumber (substitute line params) = [])
    (hs : shellArgs.length < 2) :
    runLines isNumber w shellArgs params env (line :: rest) tr
      = ⟨tr, env, Outcome.panicked⟩ := by
  match shellArgs, hs with
  | [], _ => simp [runLines, h]
  | [_], _ => simp [runLines, h]

theorem succeeded_nil (w : World) (tr : List Event) (mk : Str → ProcCall) :
    Succeeded w tr mk [] := by
  intro a x b h
  simp at h

theorem succeeded_cons (w : World) (tr : List Event) (mk : Str → ProcCall) (l : Str)
    (xs : List Str) (h0 : w tr (mk l) = none)
    (h : Succeeded w (tr ++ [Event.run (mk l)]) mk xs) : Succeeded w tr mk (l :: xs) := by
  intro a x b hab
  cases a with
  | nil =>
    simp at hab
    simpa [runEvents, ← hab.1] using h0
  | cons y a' =>
    simp at hab
    have := h a' x b hab.2
    simpa [runEvents, ← hab.1] using this

/-- What the loop of `runCommand` does when the shell has its two words: it runs
a first part `ran` of the lines, each after the success of the ones before, and
stops at the end, at a line with a missing argument, or after a failed
subprocess. -/
theorem runLines_spec (isNumber : Str → Bool) (w : World) (s0 s1 : Str) (more params : List Str)
    (env : Env) (lines : List Str) :
    ∀ tr : List Event, ∃ ran notRun errs,
      lines = ran ++ notRun ∧
      (runLines isNumber w (s0 :: s1 :: more) params env lines tr).trace
        = tr ++ runEvents (ran.map (lineCall s0 s1 params env)) ++ errs ∧
      (∀ l ∈ ran, missingArgs isNumber (substitute l params) = []) ∧
      ((notRun = [] ∧ errs = [] ∧
          (runLines isNumber w (s0 :: s1 :: more) params env lines tr).outcome
            = Outcome.returned ∧
          Succeeded w tr (lineCall s0 s1 params env) ran) ∨
       (∃ l rest, notRun = l :: rest ∧
          missingArgs isNumber (substitute l params) ≠ [] ∧
          errs = [Event.printErr (missingMessage isNumber (substitute l params))] ∧
          (runLines isNumber w (s0 :: s1 :: more) params env lines tr).outcome
            = Outcome.fatal ∧
          Succeeded w tr (lineCall s0 s1 params env) ran) ∨
       (∃ a l err, ran = a ++ [l] ∧
          w (tr ++ runEvents (a.map (lineCall s0 s1 params env)))
            (lineCall s0 s1 params env l) = some err ∧
          errs = [Event.printErr [err]] ∧
          (runLines isNumber w (s0 :: s1 :: more) params env lines tr).outcome
            = Outcome.fatal ∧
          Succeeded w tr (lineCall s0 s1 params env) a)) := by
  induction lines with
  | nil =>
    intro tr
    exact ⟨[], [], [], rfl, by simp [runLines_nil, runEvents], by simp,
      Or.inl ⟨rfl, rfl, rfl, succeeded_nil _ _ _⟩⟩
  | cons l rest ih =>
    intro tr
    by_cases hm : missingArgs isNumber (substitute l params) = []
    · cases hw : w tr (lineCall s0 s1 params env l) with
      | some err =>
        refine ⟨[l], rest, [Event.printErr [err]], rfl, ?_, ?_, Or.inr (Or.inr ?_)⟩
        · rw [runLines_fail _ _ _ _ _ _ _ _ _ _ _ hm hw]
          simp [printErr, runEvents]
        · simpa using hm
        · refine ⟨[], l, err, rfl, by simpa [runEvents] using hw, rfl, ?_, succeeded_nil _ _ _⟩
          rw [runLines_fail _ _ _ _ _ _ _ _ _ _ _ hm hw]
          rfl
      | none =>
        obtain ⟨ran, notRun, errs, hsplit, htr, hmiss, hcase⟩ :=
          ih (tr ++ [Event.run (lineCall s0 s1 params env l)])
        rw [← runLines_ok _ _ _ _ _ _ _ _ _ _ hm hw] at htr hcase
        refine ⟨l :: ran, notRun, errs, by simp [hsplit], ?_, ?_, ?_⟩
        · rw [htr]
          simp [runEvents]
        · intro x hx
          rcases List.mem_cons.mp hx with rfl | hx
          · exact hm
          · exact hmiss x hx
        · rcases hcase with ⟨h1, h2, h3, h4⟩ | ⟨x, r, h1, h2, h3, h4, h5⟩ |
            ⟨a, x, err, h1, h2, h3, h4, h5⟩
          · exact Or.inl ⟨h1, h2, h3, succeeded_cons _ _ _ _ _ hw h4⟩
          · exact Or.inr (Or.inl ⟨x, r, h1, h2, h3, h4, succeeded_cons _ _ _ _ _ hw h5⟩)
          · refine Or.inr (Or.inr ⟨l :: a, x, err, by simp [h1], ?_, h3, h4,
              succeeded_cons _ _ _ _ _ hw h5⟩)
            simpa [runEvents] using h2
    · refine ⟨[], l :: rest, [Event.printErr (missingMessage isNumber (substitute l params))],
        rfl, ?_, by simp, Or.inr (Or.inl ?_)⟩
      · rw [runLines_reject _ _ _ _ _ _ _ _ hm]
        simp [printErr, runEvents]
      · refine ⟨l, rest, rfl, hm, rfl, ?_, succeeded_nil _ _ _⟩
        rw [runLines_reject _ _ _ _ _ _ _ _ hm]
        rfl

theorem runLines_env (isNumber : Str → Bool) (w : World) (shellArgs params : List Str)
    (env : Env) (lines : List Str) :
    ∀ tr : List Event, (runLines isNumber w shellArgs params env lines tr).env = env := by
  induction lines with
  | nil => intro tr; rfl
  | cons l rest ih =>
    intro tr
    simp only [runLines]
    split
    · rfl
    · split
      · split
        · rfl
        · exact ih _
      · rfl


/-- What the loop of `runCommand` does for any shell: as `runLines_spec`, or,
when the shell has fewer than two words, it stops with a panic before its first
subprocess. -/
theorem runLines_any (isNumber : Str → Bool) (w : World) (shellArgs params : List Str)
    (env : Env) (lines : List Str) (tr : List Event) :
    ∃ ran notRun s0 s1 errs,
      lines = ran ++ notRun ∧
      (runLines isNumber w shellArgs params env lines tr).trace
        = tr ++ runEvents (ran.map (lineCall s0 s1 params env)) ++ errs ∧
      (∀ l ∈ ran, missingArgs isNumber (substitute l params) = []) ∧
      (ran ≠ [] → ∃ more, shellArgs = s0 :: s1 :: more) ∧
      ((notRun = [] ∧ errs = [] ∧
          (runLines isNumber w shellArgs params env lines tr).outcome = Outcome.returned ∧
          Succeeded w tr (lineCall s0 s1 params env) ran) ∨
       (∃ l rest, notRun = l :: rest ∧
          missingArgs isNumber (substitute l params) ≠ [] ∧
          errs = [Event.printErr (missingMessage isNumber (substitute l params))] ∧
          (runLines isNumber w shellArgs params env lines tr).outcome = Outcome.fatal ∧
          Succeeded w tr (lineCall s0 s1 params env) ran) ∨
       (∃ a l err, ran = a ++ [l] ∧
          w (tr ++ runEvents (a.map (lineCall s0 s1 params env)))
            (lineCall s0 s1 params env l) = some err ∧
          errs = [Event.printErr [err]] ∧
          (runLines isNumber w shellArgs params env lines tr).outcome = Outcome.fatal ∧
          Succeeded w tr (lineCall s0 s1 params env) a) ∨
       (shellArgs.length < 2 ∧ ran = [] ∧ notRun ≠ [] ∧ errs = [] ∧
          (runLines isNumber w shellArgs params env lines tr).outcome = Outcome.panicked)) := by
  by_cases hs : shellArgs.length < 2
  · cases lines with
    | nil =>
      exact ⟨[], [], [], [], [], rfl, by simp [runLines_nil, runEvents], by simp, by simp,
        Or.inl ⟨rfl, rfl, rfl, succeeded_nil _ _ _⟩⟩
    | cons l rest =>
      by_cases hm : missingArgs isNumber (substitute l params) = []
      · refine ⟨[], l :: rest, [], [], [], rfl, ?_, by simp, by simp,
          Or.inr (Or.inr (Or.inr ⟨hs, rfl, by simp, rfl, ?_⟩))⟩
        · rw [runLines_short _ _ _ _ _ _ _ _ hm hs]
          simp [runEvents]
        · rw [runLines_short _ _ _ _ _ _ _ _ hm hs]
      · refine ⟨[], l :: rest, [], [],
          [Event.printErr (missingMessage isNumber (substitute l params))], rfl, ?_, by simp,
          by simp, Or.inr (Or.inl ⟨l, rest, rfl, hm, rfl, ?_, succeeded_nil _ _ _⟩)⟩
        · rw [runLines_reject _ _ _ _ _ _ _ _ hm]
          simp [printErr, runEvents]
        · rw [runLines_reject _ _ _ _ _ _ _ _ hm]
          rfl
  · match shellArgs, hs with
    | s0 :: s1 :: more, _ =>
      obtain ⟨ran, notRun, errs, h1, h2, h3, h4⟩ :=
        runLines_spec isNumber w s0 s1 more params env lines tr
      refine ⟨ran, notRun, s0, s1, errs, h1, h2, h3, fun _ => ⟨more, rfl⟩, ?_⟩
      rcases h4 with h | h | h
      · exact Or.inl h
      · exact Or.inr (Or.inl h)
      · exact Or.inr (Or.inr (Or.inl h))
    | [], hs => simp at hs
    | [_], hs => simp at hs

/-- When the lines before `l` have their arguments and their subprocesses
succeed, a line `l` with a missing argument ends the run with the
missing-argument error. -/
theorem runLines_reach (isNumber : Str → Bool) (w : World) (shellArgs : List Str)
    (s0 s1 : Str) (more params : List Str) (env : Env) (l : Str) (b : List Str)
    (hm : missingArgs isNumber (substitute l params) ≠ []) :
    ∀ (a : List Str) (tr : List Event), (a ≠ [] → shellArgs = s0 :: s1 :: more) →
      (∀ x ∈ a, missingArgs isNumber (substitute x params) = []) →
      Succeeded w tr (lineCall s0 s1 params env) a →
      runLines isNumber w shellArgs params env (a ++ l :: b) tr
        = printErr (tr ++ runEvents (a.map (lineCall s0 s1 params env))) env
            (missingMessage isNumber (substitute l params)) := by
  intro a
  induction a with
  | nil =>
    intro tr _ _ _
    simp [runLines_reject _ _ _ _ _ _ _ _ hm, runEvents]
  | cons x a ih =>
    intro tr hsh hx hsucc
    have hshell := hsh (by simp)
    have hx0 : missingArgs isNumber (substitute x params) = [] := hx x (by simp)
    have hw : w tr (lineCall s0 s1 params env x) = none := by
      simpa [runEvents] using hsucc [] x a rfl
    have hsucc' : Succeeded w (tr ++ [Event.run (lineCall s0 s1 params env x)])
        (lineCall s0 s1 params env) a := by
      intro a1 y b1 hab
      have := hsucc (x :: a1) y b1 (by simp [hab])
      simpa [runEvents] using this
    subst hshell
    rw [List.cons_append, runLines_ok _ _ _ _ _ _ _ _ _ _ hx0 hw,
      ih _ (fun _ => rfl) (fun y hy => hx y (by simp [hy])) hsucc']
    simp [runEvents]

/-! ## The environment -/

theorem lookup_filter_ne (env : Env) (k v : Str) (h : k ≠ v) :
    List.lookup v (env.filter (fun p => p.1 != k)) = List.lookup v env := by
  induction env with
  | nil => rfl
  | cons p t ih =>
    obtain ⟨pk, pv⟩ := p
    by_cases hp : pk = k
    · subst hp
      have hvp : (v == pk) = false := by simpa using fun h' => h h'.symm
      simp [List.filter_cons, List.lookup_cons, hvp, ih]
    · have : (pk != k) = true := by simpa using hp
      simp only [List.filter_cons, this, if_true, List.lookup_cons]
      rw [ih]

theorem Getenv_Setenv (env : Env) (k val v : Str) :
    Getenv (Setenv env k val) v
      = if setenvOk k val = true ∧ k = v then val else Getenv env v := by
  by_cases hok : setenvOk k val = true
  · by_cases h : k = v
    · subst h
      simp [Getenv, Setenv, List.lookup_cons, hok]
    · have hvk : (v == k) = false := by simpa using fun h' => h h'.symm
      simp [Getenv, Setenv, List.lookup_cons, hvk, h, hok, lookup_filter_ne env k v h]
  · simp [Setenv, hok]

theorem applyEnv_append (init : List EnvVar) (e : EnvVar) (env : Env) :
    applyEnv (init ++ [e]) env = Setenv (applyEnv init env) e.Name e.Value := by
  simp [applyEnv, List.foldl_append]

theorem lastValue_append (init : List EnvVar) (e : EnvVar) (v : Str) :
    lastValue (init ++ [e]) v = if e.Name = v then some e.Value else lastValue init v := by
  by_cases h : e.Name = v
  · simp [lastValue, List.filter_append, List.filter_cons, h]
  · have : (e.Name == v) = false := by simpa using h
    simp [lastValue, List.filter_append, List.filter_cons, h, this]

theorem accepted_append (init : List EnvVar) (e : EnvVar) :
    accepted (init ++ [e])
      = if setenvOk e.Name e.Value = true then accepted init ++ [e] else accepted init := by
  by_cases hok : setenvOk e.Name e.Value = true
  · simp [accepted, List.filter_append, List.filter_cons, hok]
  · simp [accepted, List.filter_append, List.filter_cons, hok]

theorem lastValue_accepted_append (init : List EnvVar) (e : EnvVar) (v : Str) :
    lastValue (accepted (init ++ [e])) v
      = if setenvOk e.Name e.Value = true ∧ e.Name = v then some e.Value
        else lastValue (accepted init) v := by
  rw [accepted_append]
  by_cases hok : setenvOk e.Name e.Value = true
  · rw [if_pos hok, lastValue_append]
    by_cases h : e.Name = v
    · rw [if_pos h, if_pos ⟨hok, h⟩]
    · rw [if_neg h, if_neg (fun hh => h hh.2)]
  · rw [if_neg hok, if_neg (fun hh => hok hh.1)]

/-- After the loop over `entries`, a variable named by an entry that `os.Setenv`
accepts holds the value of the last such entry with its name; any other
variable is unchanged. -/
theorem Getenv_applyEnv (entries : List EnvVar) (env : Env) (v : Str) :
    Getenv (applyEnv entries env) v
      = (lastValue (accepted entries) v).getD (Getenv env v) := by
  induction entries using List.reverseRecOn with
  | nil => simp [applyEnv, lastValue, accepted]
  | append_singleton init e ih =>
    rw [applyEnv_append, Getenv_Setenv, lastValue_accepted_append, ih]
    by_cases h : setenvOk e.Name e.Value = true ∧ e.Name = v
    · rw [if_pos h, if_pos h]
      rfl
    · rw [if_neg h, if_neg h]

/-! ## Lookup and dispatch -/

theorem lookupCommand_none (cmds : List GrowlCommand) (name : Str)
    (h : ∀ c ∈ cmds, c.Name ≠ name) : lookupCommand cmds name = GrowlCommand.zero := by
  have : cmds.find? (fun cmd => cmd.Name == name) = none := by
    simp only [List.find?_eq_none]
    intro c hc
    simpa using h c hc
  simp [lookupCommand, this]

theorem lookupCommand_first (cmds : List GrowlCommand) (name : Str)
    (h : ∃ c ∈ cmds, c.Name = name) :
    ∃ pre command post, cmds = pre ++ command :: post ∧ (∀ c ∈ pre, c.Name ≠ name) ∧
      command.Name = name ∧ lookupCommand cmds name = command := by
  induction cmds with
  | nil => simp at h
  | cons c t ih =>
    by_cases hc : c.Name = name
    · exact ⟨[], c, t, rfl, by simp, hc, by simp [lookupCommand, hc]⟩
    · have ht : ∃ c ∈ t, c.Name = name := by
        obtain ⟨x, hx, hxn⟩ := h
        rcases List.mem_cons.mp hx with rfl | hx
        · exact absurd hxn hc
        · exact ⟨x, hx, hxn⟩
      obtain ⟨pre, command, post, h1, h2, h3, h4⟩ := ih ht
      refine ⟨c :: pre, command, post, by simp [h1], ?_, h3, ?_⟩
      · intro x hx
        rcases List.mem_cons.mp hx with rfl | hx
        · exact hc
        · exact h2 x hx
      · have : (c.Name == name) = false := by simpa using hc
        simpa [lookupCommand, List.find?_cons, this] using h4

theorem runCommand_found (isNumber : Str → Bool) (goos : Str) (w : World) (name : Str)
    (params : List Str) (cfg : GrowlYaml) (env : Env) (command : GrowlCommand)
    (hfound : lookupCommand cfg.Commands name = command) (hname : command.Name ≠ []) :
    runCommand isNumber goos w (name :: params) cfg env
      = runLines isNumber w (strings.Split (resolveShell cfg goos) ' ') params
          (commandEnv cfg command env) (commandLines command)
          (setenvEvents cfg.GlobalEnv ++ setenvEvents command.Env) := by
  simp [runCommand, hfound, hname, dispatch, commandEnv]

theorem runCommand_missing (isNumber : Str → Bool) (goos : Str) (w : World) (name : Str)
    (params : List Str) (cfg : GrowlYaml) (env : Env)
    (h : (lookupCommand cfg.Commands name).Name = []) :
    runCommand isNumber goos w (name :: params) cfg env
      = printErr [Event.printList cfg.Commands] env ["Command not found".toList] := by
  simp [runCommand, h]

theorem succeeded_init (w : World) (tr : List Event) (mk : Str → ProcCall) (a : List Str)
    (l : Str) (h : Succeeded w tr mk a) (a1 : List Str) (x : Str) (b : List Str)
    (hab : a ++ [l] = a1 ++ x :: b) (hb : b ≠ []) :
    w (tr ++ runEvents (a1.map mk)) (mk x) = none := by
  obtain ⟨b0, y, rfl⟩ : ∃ b0 y, b = b0 ++ [y] :=
    ⟨b.dropLast, b.getLast hb, (List.dropLast_append_getLast hb).symm⟩
  have h1 : a ++ [l] = (a1 ++ x :: b0) ++ [y] := by simpa using hab
  have h2 := List.append_inj_left' h1 rfl
  exact h a1 x b0 h2

/-- The run of `runCommand` for a command that is found: the events of the
environment, then the subprocesses of a first part `ran` of the lines, then at
most one error message; and how it ends. -/
theorem runCommand_spec (isNumber : Str → Bool) (goos : Str) (w : World) (name : Str)
    (params : List Str) (cfg : GrowlYaml) (env : Env) (command : GrowlCommand)
    (hfound : lookupCommand cfg.Commands name = command) (hname : command.Name ≠ []) :
    ∃ ran notRun s0 s1 errs,
      commandLines command = ran ++ notRun ∧
      (runCommand isNumber goos w (name :: params) cfg env).trace
        = (setenvEvents cfg.GlobalEnv ++ setenvEvents command.Env)
          ++ runEvents (ran.map (lineCall s0 s1 params (commandEnv cfg command env))) ++ errs ∧
      (errs = [] ∨ ∃ args, errs = [Event.printErr args]) ∧
      (runCommand isNumber goos w (name :: params) cfg env).calls
        = ran.map (lineCall s0 s1 params (commandEnv cfg command env)) ∧
      (∀ l ∈ ran, missingArgs isNumber (substitute l params) = []) ∧
      (ran ≠ [] → ∃ more, strings.Split (resolveShell cfg goos) ' ' = s0 :: s1 :: more) ∧
      ((notRun = [] ∧ errs = [] ∧
          (runCommand isNumber goos w (name :: params) cfg env).outcome = Outcome.returned ∧
          Succeeded w (setenvEvents cfg.GlobalEnv ++ setenvEvents command.Env)
            (lineCall s0 s1 params (commandEnv cfg command env)) ran) ∨
       (∃ l rest, notRun = l :: rest ∧
          missingArgs isNumber (substitute l params) ≠ [] ∧
          errs = [Event.printErr (missingMessage isNumber (substitute l params))] ∧
          (runCommand isNumber goos w (name :: params) cfg env).outcome = Outcome.fatal ∧
          Succeeded w (setenvEvents cfg.GlobalEnv ++ setenvEvents command.Env)
            (lineCall s0 s1 params (commandEnv cfg command env)) ran) ∨
       (∃ a l err, ran = a ++ [l] ∧
          w ((setenvEvents cfg.GlobalEnv ++ setenvEvents command.Env)
              ++ runEvents (a.map (lineCall s0 s1 params (commandEnv cfg command env))))
            (lineCall s0 s1 params (commandEnv cfg command env) l) = some err ∧
          errs = [Event.printErr [err]] ∧
          (runCommand isNumber goos w (name :: params) cfg env).outcome = Outcome.fatal ∧
          Succeeded w (setenvEvents cfg.GlobalEnv ++ setenvEvents command.Env)
            (lineCall s0 s1 params (commandEnv cfg command env)) a) ∨
       ((strings.Split (resolveShell cfg goos) ' ').length < 2 ∧ ran = [] ∧ notRun ≠ [] ∧
          errs = [] ∧
          (runCommand isNumber goos w (name :: params) cfg env).outcome
            = Outcome.panicked)) := by
  obtain ⟨ran, notRun, s0, s1, errs, h1, h2, h3, h4, h5⟩ :=
    runLines_any isNumber w (strings.Split (resolveShell cfg goos) ' ') params
      (commandEnv cfg command env) (commandLines command)
      (setenvEvents cfg.GlobalEnv ++ setenvEvents command.Env)
  rw [← runCommand_found isNumber goos w name params cfg env command hfound hname] at h2 h5
  have herrs : errs = [] ∨ ∃ args, errs = [Event.printErr args] := by
    rcases h5 with h | ⟨_, _, _, _, h, _⟩ | ⟨_, _, _, _, _, h, _⟩ | h
    · exact Or.inl h.2.1
    · exact Or.inr ⟨_, h⟩
    · exact Or.inr ⟨_, h⟩
    · exact Or.inl h.2.2.2.1
  refine ⟨ran, notRun, s0, s1, errs, h1, h2, herrs, ?_, h3, h4, h5⟩
  have hc : callsOf errs = [] := by
    rcases herrs with h | ⟨args, h⟩ <;> subst h <;> rfl
  simp [Result.calls, h2, callsOf_append, callsOf_runEvents, callsOf_setenvEvents, hc]


/-! ## Words of a substituted line -/

theorem leadDigit_small (K : Nat) (h : K ≤ 9) : leadDigit K = K := by
  interval_cases K <;> rfl

theorem digitChar_ne_percent_lt (m : Nat) (h : m < 10) : Nat.digitChar m ≠ '%' := by
  interval_cases m <;> decide

theorem toDigitsCore_forall (P : Char → Prop) (hP : ∀ m, m < 10 → P (Nat.digitChar m))
    (fuel : Nat) :
    ∀ (n : Nat) (ds : List Char), (∀ c ∈ ds, P c) →
      ∀ c ∈ Nat.toDigitsCore 10 fuel n ds, P c := by
  induction fuel with
  | zero => intro n ds h c hc; exact h c (by simpa [Nat.toDigitsCore] using hc)
  | succ fuel ih =>
    intro n ds h c hc
    have hd : ∀ x ∈ Nat.digitChar (n % 10) :: ds, P x := by
      intro x hx
      rcases List.mem_cons.mp hx with rfl | hx
      · exact hP _ (Nat.mod_lt _ (by decide))
      · exact h x hx
    simp only [Nat.toDigitsCore] at hc
    split at hc
    · exact hd c hc
    · exact ih _ _ hd c hc

theorem toDigits_ne_percent (K : Nat) : '%' ∉ Nat.toDigits 10 K := by
  intro h
  exact toDigitsCore_forall (fun c => c ≠ '%') digitChar_ne_percent_lt _ _ _ (by simp) _ h rfl

theorem leadDigit_le (K : Nat) : leadDigit K ≤ 9 := by
  have hall := toDigitsCore_forall (fun c => c.toNat - '0'.toNat ≤ 9)
    (by intro m hm; interval_cases m <;> decide) (K + 1) K [] (by simp)
  simp only [leadDigit]
  cases hd : Nat.toDigits 10 K with
  | nil => simp
  | cons c t =>
    exact hall c (by
      have : c ∈ Nat.toDigits 10 K := by simp [hd]
      exact this)

theorem digitChar_val (i : Nat) (h : i < 9) :
    (Nat.digitChar (i + 1)).toNat - '0'.toNat = i + 1 := by
  interval_cases i <;> rfl

/-! ### Words and replacement -/

theorem Split_ne_nil (sep : Char) (s : Str) : strings.Split s sep ≠ [] := by
  cases s with
  | nil => simp [strings.Split]
  | cons c t =>
    by_cases hc : c = sep
    · simp [strings.Split, hc]
    · simp only [strings.Split, hc, if_false]
      split <;> simp

theorem Split_cons_ne (sep c : Char) (t : Str) (hc : c ≠ sep) :
    strings.Split (c :: t) sep =
      match strings.Split t sep with
      | [] => [[c]]
      | w :: ws => (c :: w) :: ws := by
  simp [strings.Split, hc]

theorem Split_append_sep (sep : Char) (x y : Str) :
    strings.Split (x ++ sep :: y) sep = strings.Split x sep ++ strings.Split y sep := by
  induction x with
  | nil => simp [strings.Split]
  | cons c t ih =>
    by_cases hc : c = sep
    · simp [strings.Split, hc, ih]
    · rw [List.cons_append, Split_cons_ne _ _ _ hc, Split_cons_ne _ _ _ hc, ih]
      cases hs : strings.Split t sep with
      | nil => exact absurd hs (Split_ne_nil sep t)
      | cons w0 ws => simp

theorem Split_of_not_mem (sep : Char) (x : Str) (h : sep ∉ x) :
    strings.Split x sep = [x] := by
  induction x with
  | nil => rfl
  | cons c t ih =>
    have hc : c ≠ sep := fun h' => h (by simp [h'])
    have ht : sep ∉ t := fun h' => h (by simp [h'])
    simp [strings.Split, hc, ih ht]

theorem exists_first_sep (sep : Char) (s : Str) (h : sep ∈ s) :
    ∃ x y, s = x ++ sep :: y ∧ sep ∉ x := by
  induction s with
  | nil => simp at h
  | cons c t ih =>
    by_cases hc : c = sep
    · exact ⟨[], t, by simp [hc], by simp⟩
    · have ht : sep ∈ t := by
        rcases List.mem_cons.mp h with h' | h'
        · exact absurd h'.symm hc
        · exact h'
      obtain ⟨x, y, hxy, hx⟩ := ih ht
      refine ⟨c :: x, y, by simp [hxy], ?_⟩
      intro hm
      rcases List.mem_cons.mp hm with h' | h'
      · exact hc h'.symm
      · exact hx h'

theorem isPrefixOf_of_append_sep (sep : Char) (old u y : Str) (hsep : sep ∉ old)
    (h : old.isPrefixOf (u ++ sep :: y) = true) :
    old.isPrefixOf u = true ∧ old.length ≤ u.length := by
  induction old generalizing u with
  | nil => simp
  | cons o t ih =>
    have ho : o ≠ sep := fun h' => hsep (by simp [h'])
    have ht : sep ∉ t := fun h' => hsep (by simp [h'])
    cases u with
    | nil =>
      simp [List.isPrefixOf] at h
      exact absurd h.1 ho
    | cons c u' =>
      simp only [List.cons_append, List.isPrefixOf, Bool.and_eq_true] at h ⊢
      obtain ⟨h1, h2⟩ := ih u' ht h.2
      exact ⟨⟨h.1, h1⟩, by simp; omega⟩

theorem isPrefixOf_append_right (old u z : Str) (h : old.isPrefixOf u = true) :
    old.isPrefixOf (u ++ z) = true := by
  induction old generalizing u with
  | nil => simp
  | cons o t ih =>
    cases u with
    | nil => simp [List.isPrefixOf] at h
    | cons c u' =>
      simp only [List.cons_append, List.isPrefixOf, Bool.and_eq_true] at h ⊢
      exact ⟨h.1, ih u' h.2⟩

theorem ReplaceAux_zero_pos (old new : Str) (c : Char) (t : Str)
    (h : old.isPrefixOf (c :: t) = true) :
    strings.ReplaceAux old new 0 (c :: t)
      = new ++ strings.ReplaceAux old new (old.length - 1) t := by
  simp [strings.ReplaceAux, h]

theorem ReplaceAux_zero_neg (old new : Str) (c : Char) (t : Str)
    (h : ¬ old.isPrefixOf (c :: t) = true) :
    strings.ReplaceAux old new 0 (c :: t) = c :: strings.ReplaceAux old new 0 t := by
  simp [strings.ReplaceAux, h]

theorem ReplaceAux_succ (old new : Str) (k : Nat) (c : Char) (t : Str) :
    strings.ReplaceAux old new (k + 1) (c :: t) = strings.ReplaceAux old new k t := rfl

/-- A replacement whose pattern holds no separator works on each side of a
separator on its own. -/
theorem ReplaceAux_append_sep (sep : Char) (old new y : Str) (hsep : sep ∉ old)
    (hold : old ≠ []) :
    ∀ (x : Str) (k : Nat), k ≤ x.length →
      strings.ReplaceAux old new k (x ++ sep :: y)
        = strings.ReplaceAux old new k x ++ sep :: strings.ReplaceAux old new 0 y := by
  intro x
  induction x with
  | nil =>
    intro k hk
    have hk0 : k = 0 := by simpa using hk
    subst hk0
    have hnp : ¬ old.isPrefixOf (sep :: y) = true := by
      cases old with
      | nil => exact absurd rfl hold
      | cons o t =>
        have ho : (o == sep) = false := by simpa using fun h' : o = sep => hsep (by simp [h'])
        simp [List.isPrefixOf, ho]
    rw [List.nil_append, ReplaceAux_zero_neg _ _ _ _ hnp]
    simp [strings.ReplaceAux]
  | cons c t ih =>
    intro k hk
    cases k with
    | succ k' =>
      rw [List.cons_append, ReplaceAux_succ, ReplaceAux_succ]
      exact ih k' (by simpa using hk)
    | zero =>
      by_cases hp : old.isPrefixOf (c :: t ++ sep :: y) = true
      · obtain ⟨hp', hlen⟩ := isPrefixOf_of_append_sep sep old (c :: t) y hsep hp
        rw [List.cons_append] at hp
        rw [List.cons_append, ReplaceAux_zero_pos _ _ _ _ hp, ReplaceAux_zero_pos _ _ _ _ hp',
          ih (old.length - 1) (by simp at hlen; omega)]
        simp
      · have hp' : ¬ old.isPrefixOf (c :: t) = true :=
          fun h => hp (isPrefixOf_append_right old (c :: t) (sep :: y) h)
        rw [List.cons_append] at hp
        rw [List.cons_append, ReplaceAux_zero_neg _ _ _ _ hp, ReplaceAux_zero_neg _ _ _ _ hp',
          ih 0 (Nat.zero_le _)]
        simp

/-- A word that a replacement leaves as it is remains a word of the line. -/
theorem mem_Split_ReplaceAux (sep : Char) (old new w : Str) (hsep : sep ∉ old)
    (hold : old ≠ []) (hw : strings.ReplaceAux old new 0 w = w) (hws : sep ∉ w) :
    ∀ (n : Nat) (s : Str), s.length ≤ n → w ∈ strings.Split s sep →
      w ∈ strings.Split (strings.ReplaceAux old new 0 s) sep := by
  intro n
  induction n with
  | zero =>
    intro s hs hmem
    have : s = [] := List.length_eq_zero.mp (by omega)
    subst this
    simp only [strings.Split, List.mem_singleton] at hmem
    subst hmem
    simp [strings.ReplaceAux, strings.Split]
  | succ n ih =>
    intro s hs hmem
    by_cases hin : sep ∈ s
    · obtain ⟨x, y, hxy, hx⟩ := exists_first_sep sep s hin
      subst hxy
      rw [Split_append_sep, Split_of_not_mem sep x hx] at hmem
      rw [ReplaceAux_append_sep sep old new y hsep hold x 0 (Nat.zero_le _), Split_append_sep]
      rcases List.mem_append.mp hmem with h | h
      · have hwx : w = x := by simpa using h
        subst hwx
        rw [hw, Split_of_not_mem sep w hx]
        simp
      · have hy : y.length ≤ n := by simp at hs; omega
        exact List.mem_append.mpr (Or.inr (ih y hy h))
    · rw [Split_of_not_mem sep s hin] at hmem
      have : w = s := by simpa using hmem
      subst this
      rw [hw, Split_of_not_mem sep w hin]
      simp

theorem mem_Split_not_mem (sep : Char) (w : Str) :
    ∀ (n : Nat) (s : Str), s.length ≤ n → w ∈ strings.Split s sep → sep ∉ w := by
  intro n
  induction n with
  | zero =>
    intro s hs hmem
    have : s = [] := List.length_eq_zero.mp (by omega)
    subst this
    simp only [strings.Split, List.mem_singleton] at hmem
    subst hmem
    simp
  | succ n ih =>
    intro s hs hmem
    by_cases hin : sep ∈ s
    · obtain ⟨x, y, hxy, hx⟩ := exists_first_sep sep s hin
      subst hxy
      rw [Split_append_sep, Split_of_not_mem sep x hx] at hmem
      rcases List.mem_append.mp hmem with h | h
      · have hwx : w = x := by simpa using h
        subst hwx
        exact hx
      · exact ih y (by simp at hs; omega) h
    · rw [Split_of_not_mem sep s hin] at hmem
      have : w = s := by simpa using hmem
      subst this
      exact hin

/-- The word `%K` is left as it is by the replacement of `%N` when the numeral of
`K` does not start with the digit `N`. -/
theorem ReplaceAux_placeholder (i K : Nat) (new : Str) (hi : i < 9)
    (h : i + 1 < leadDigit K) :
    strings.ReplaceAux ['%', Nat.digitChar (i + 1)] new 0 (placeholder K) = placeholder K := by
  have hhead : (Nat.toDigits 10 K).head? ≠ some (Nat.digitChar (i + 1)) := by
    intro hh
    cases hd : Nat.toDigits 10 K with
    | nil => simp [hd] at hh
    | cons c t =>
      simp [hd] at hh
      have : leadDigit K = i + 1 := by
        simp only [leadDigit, hd, hh]
        exact digitChar_val i hi
      omega
  simp only [placeholder]
  rw [ReplaceAux_percent _ _ _ hhead]
  have := ReplaceAux_append (Nat.digitChar (i + 1)) new (Nat.toDigits 10 K) []
    (toDigits_ne_percent K)
  simp only [List.append_nil, strings.ReplaceAux] at this
  rw [this]

/-- When fewer arguments are supplied than the first digit of `K`, a word `%K`
of the template is a word of the substituted line. -/
theorem placeholder_mem_Split_substitute (l : Str) (K : Nat)
    (hword : placeholder K ∈ strings.Split l ' ') :
    ∀ params : List Str, params.length < leadDigit K →
      placeholder K ∈ strings.Split (substitute l params) ' ' := by
  intro params
  induction params using List.reverseRecOn with
  | nil => intro _; simpa [substitute] using hword
  | append_singleton init a ih =>
    intro hlen
    have hlen' : init.length + 1 < leadDigit K := by simpa using hlen
    have h9 := leadDigit_le K
    have hi : init.length < 9 := by omega
    have ih' := ih (by omega)
    rw [substitute_append, placeholder_digit _ hi]
    simp only [strings.ReplaceAll]
    rw [if_neg (by simp)]
    have hsp : ' ' ∉ placeholder K := mem_Split_not_mem ' ' _ _ _ le_rfl hword
    have hsepold : ' ' ∉ ['%', Nat.digitChar (init.length + 1)] := by
      have : Nat.digitChar (init.length + 1) ≠ ' ' := by
        interval_cases init.length <;> decide
      simp [Ne.symm this]
    exact mem_Split_ReplaceAux ' ' _ a _ hsepold (by simp)
      (ReplaceAux_placeholder _ K a hi hlen') hsp _ _ le_rfl ih'

/-! ## The properties of the specification: `runCommand` -/

/-- C1, as stated, fails. With the template `echo %1` and the arguments
`greet`, `%2`, `x`, the line `runCommand` produces is `echo x`, whereas the
template with `%1` replaced by the first argument is `echo %2`: the text of an
argument is scanned again for the placeholders of later arguments. The same
happens when a percent sign of the template comes to stand before the text of
an argument (`%%12` with an empty first argument), and with ten arguments `%10`
is read as `%1` followed by `0`. -/
theorem substitute_rescans_arguments :
    substitute "echo %1".toList ["%2".toList, "x".toList] = "echo x".toList ∧
    substituteSpec ["%2".toList, "x".toList] "echo %1".toList = "echo %2".toList ∧
    substitute "echo %1".toList ["%2".toList, "x".toList]
      ≠ substituteSpec ["%2".toList, "x".toList] "echo %1".toList ∧
    substitute "%%12".toList [[], "x".toList] = "x".toList ∧
    substituteSpec [[], "x".toList] "%%12".toList = "%2".toList ∧
    substitute "%10".toList ["a".toList, "b".toList, "c".toList, "d".toList, "e".toList,
        "f".toList, "g".toList, "h".toList, "i".toList, "j".toList] = "a0".toList ∧
    substituteSpec ["a".toList, "b".toList, "c".toList, "d".toList, "e".toList,
        "f".toList, "g".toList, "h".toList, "i".toList, "j".toList] "%10".toList
      = "j".toList := by
  decide

/-- C1, amended: for every template without two percent signs in a row and
every argument list with at most nine arguments after the command name, none of
which contains a percent sign, the line produced by the substitution of
`runCommand` is the template with every occurrence of the text `%N`,
`1 ≤ N ≤ len(args)-1`, replaced by `args[N]`; and the template `echo %1` with
the arguments `greet`, `hello` yields `echo hello`. -/
theorem substitute_eq_substituteSpec (template : Str) (params : List Str)
    (hlen : params.length ≤ 9) (hargs : ∀ x ∈ params, '%' ∉ x)
    (hinf : ¬ ['%', '%'] <:+: template) :
    substitute template params = substituteSpec params template ∧
    substitute "echo %1".toList ["hello".toList] = "echo hello".toList :=
  ⟨substitute_eq_spec_aux template hinf params hlen hargs, by decide⟩

/-- The amended C1 at the template `echo %1 to %2` and the arguments `a`, `b`. -/
theorem substitute_eq_substituteSpec_witness :
    substitute "echo %1 to %2".toList ["a".toList, "b".toList] = "echo a to b".toList := by
  have h := (substitute_eq_substituteSpec "echo %1 to %2".toList ["a".toList, "b".toList]
    (by decide) (by decide) (by decide)).1
  rw [h]
  decide

/-- C2, as stated, fails. The template `echo a%2` references `%2`, one argument
is supplied, and, whatever `isNumber` is, `runCommand` hands the line to the
shell with the literal `%2` still in it and reports no error, since `%2` is
not a word of its own. And the template `echo %12` references `%12`, one
argument is supplied, and the line is run as `echo hello2`, since `%12` begins
with the placeholder `%1` of the argument that is supplied. -/
theorem runCommand_runs_embedded_placeholder :
    (fun isNumber : Str → Bool =>
      runCommand isNumber "linux".toList (fun _ _ => none) ["greet".toList, "hello".toList]
        ⟨[], [], [⟨"greet".toList, "echo a%2".toList, [], []⟩]⟩ [])
      = (fun _ => ⟨[Event.run ⟨"bash".toList, [], "-c \"echo a%2\"".toList, []⟩], [],
          Outcome.returned⟩) ∧
    (fun isNumber : Str → Bool =>
      runCommand isNumber "windows".toList (fun _ _ => none) ["greet".toList, "hello".toList]
        ⟨[], [], [⟨"greet".toList, "echo %12".toList, [], []⟩]⟩ [])
      = (fun _ => ⟨[Event.run ⟨"cmd".toList, [], "/C \"echo hello2\"".toList, []⟩], [],
          Outcome.returned⟩) := by
  constructor
  · funext isNumber
    rfl
  · funext isNumber
    rfl

/-- What follows once a line of a found command has, after substitution, a word
that the check of lines 54-62 takes for a missing argument. -/
theorem runCommand_rejects_of_missing (isNumber : Str → Bool) (goos : Str) (w : World)
    (name : Str) (params : List Str) (cfg : GrowlYaml) (env : Env) (command : GrowlCommand)
    (a : List Str) (l : Str) (b : List Str)
    (hfound : lookupCommand cfg.Commands name = command) (hname : command.Name ≠ [])
    (hl : commandLines command = a ++ l :: b)
    (hm : missingArgs isNumber (substitute l params) ≠ []) :
    (runCommand isNumber goos w (name :: params) cfg env).outcome ≠ Outcome.returned ∧
    (∃ ran s0 s1, ran <+: a ∧
      (runCommand isNumber goos w (name :: params) cfg env).calls
        = ran.map (lineCall s0 s1 params (commandEnv cfg command env)) ∧
      ∀ x ∈ ran, missingArgs isNumber (substitute x params) = []) ∧
    (∀ s0 s1 more,
      (a ≠ [] → strings.Split (resolveShell cfg goos) ' ' = s0 :: s1 :: more) →
      (∀ x ∈ a, missingArgs isNumber (substitute x params) = []) →
      Succeeded w (setenvEvents cfg.GlobalEnv ++ setenvEvents command.Env)
        (lineCall s0 s1 params (commandEnv cfg command env)) a →
      runCommand isNumber goos w (name :: params) cfg env
        = printErr ((setenvEvents cfg.GlobalEnv ++ setenvEvents command.Env)
            ++ runEvents (a.map (lineCall s0 s1 params (commandEnv cfg command env))))
            (commandEnv cfg command env)
            (missingMessage isNumber (substitute l params))) := by
  obtain ⟨ran, notRun, s0, s1, errs, h1, _, _, h4, h5, _, h7⟩ :=
    runCommand_spec isNumber goos w name params cfg env command hfound hname
  have hnot : l ∉ ran := fun h => hm (h5 l h)
  have hpre : ran <+: a := by
    rw [hl] at h1
    rcases List.append_eq_append_iff.mp h1 with ⟨c', h, h'⟩ | ⟨a', h, _⟩
    · cases c' with
      | nil => simp at h; exact ⟨[], by simp [h]⟩
      | cons y c'' =>
        simp at h'
        exact absurd (by simp [h, h'.1]) hnot
    · exact ⟨a', h.symm⟩
  refine ⟨?_, ⟨ran, s0, s1, hpre, h4, h5⟩, ?_⟩
  · rcases h7 with h | ⟨_, _, _, _, _, h, _⟩ | ⟨_, _, _, _, _, _, h, _⟩ | h
    · exfalso
      apply hnot
      have : ran = a ++ l :: b := by rw [← hl, h1, h.1]; simp
      simp [this]
    · simp [h]
    · simp [h]
    · simp [h.2.2.2.2]
  · intro t0 t1 more hsh ha hsucc
    rw [runCommand_found isNumber goos w name params cfg env command hfound hname, hl]
    exact runLines_reach isNumber w _ t0 t1 more params _ l b hm a _ hsh ha hsucc

/-- The word `%K` of a template is found missing by the check of lines 54-62
when fewer arguments are supplied than the first digit of `K` and `isNumber`
accepts the numeral of `K`. -/
theorem placeholder_mem_missingArgs (isNumber : Str → Bool) (l : Str) (K : Nat)
    (params : List Str) (hword : placeholder K ∈ strings.Split l ' ')
    (hK : params.length < leadDigit K) (hnum : isNumber (Nat.toDigits 10 K) = true) :
    placeholder K ∈ missingArgs isNumber (substitute l params) := by
  have hmem := placeholder_mem_Split_substitute l K hword params hK
  simp only [missingArgs, List.mem_filter, Bool.and_eq_true]
  refine ⟨hmem, ?_, ?_⟩
  · simp [strings.HasPrefix, placeholder, List.isPrefixOf]
  · simpa [placeholder] using hnum

/-- C2, amended: for every command that is found, every line of it whose
template has, between single spaces, a word `%K` with a number `K` that
`isNumber` accepts, and every invocation that supplies fewer arguments after
the command name than the first decimal digit of `K` (fewer than `K` when
`K ≤ 9`, see `leadDigit_small`), the word `%K` is still in the substituted line
and is found missing; `runCommand` does not return normally and hands neither
that line nor a later one to the shell: the subprocesses it starts are those of
a first part of the lines before it; and when the lines before it have their
arguments and their subprocesses succeed, the run ends with the
missing-argument error for that line. -/
theorem runCommand_rejects_missing (isNumber : Str → Bool) (goos : Str) (w : World)
    (name : Str) (params : List Str) (cfg : GrowlYaml) (env : Env) (command : GrowlCommand)
    (a : List Str) (l : Str) (b : List Str) (K : Nat)
    (hfound : lookupCommand cfg.Commands name = command) (hname : command.Name ≠ [])
    (hl : commandLines command = a ++ l :: b)
    (hword : placeholder K ∈ strings.Split l ' ')
    (hK : params.length < leadDigit K)
    (hnum : isNumber (Nat.toDigits 10 K) = true) :
    placeholder K ∈ missingArgs isNumber (substitute l params) ∧
    (runCommand isNumber goos w (name :: params) cfg env).outcome ≠ Outcome.returned ∧
    (∃ ran s0 s1, ran <+: a ∧
      (runCommand isNumber goos w (name :: params) cfg env).calls
        = ran.map (lineCall s0 s1 params (commandEnv cfg command env)) ∧
      ∀ x ∈ ran, missingArgs isNumber (substitute x params) = []) ∧
    (∀ s0 s1 more,
      (a ≠ [] → strings.Split (resolveShell cfg goos) ' ' = s0 :: s1 :: more) →
      (∀ x ∈ a, missingArgs isNumber (substitute x params) = []) →
      Succeeded w (setenvEvents cfg.GlobalEnv ++ setenvEvents command.Env)
        (lineCall s0 s1 params (commandEnv cfg command env)) a →
      runCommand isNumber goos w (name :: params) cfg env
        = printErr ((setenvEvents cfg.GlobalEnv ++ setenvEvents command.Env)
            ++ runEvents (a.map (lineCall s0 s1 params (commandEnv cfg command env))))
            (commandEnv cfg command env)
            (missingMessage isNumber (substitute l params))) := by
  have hmem := placeholder_mem_missingArgs isNumber l K params hword hK hnum
  exact ⟨hmem, runCommand_rejects_of_missing isNumber goos w name params cfg env command a l b
    hfound hname hl (List.ne_nil_of_mem hmem)⟩

/-- The amended C2 at the template `echo %2` with the single argument `hello`:
the run ends with the missing-argument error naming `%2` and starts no
subprocess. -/
theorem runCommand_rejects_missing_witness :
    runCommand isDecimal "linux".toList (fun _ _ => none) ["greet".toList, "hello".toList]
        ⟨[], [], [⟨"greet".toList, "echo %2".toList, [], []⟩]⟩ []
      = ⟨[Event.printErr ["Missing argument(s):".toList, "%2".toList]], [], Outcome.fatal⟩ := by
  have h := (runCommand_rejects_missing isDecimal "linux".toList (fun _ _ => none)
    "greet".toList ["hello".toList] ⟨[], [], [⟨"greet".toList, "echo %2".toList, [], []⟩]⟩ []
    ⟨"greet".toList, "echo %2".toList, [], []⟩ [] "echo %2".toList [] 2
    (by decide) (by decide) (by decide) (by decide) (by decide) (by decide)).2.2.2 [] [] []
    (by simp) (by simp) (succeeded_nil _ _ _)
  rw [h]
  decide

/-- C3: for every command that is found, the command lines `runCommand` hands
to the shell are a first part `ran` of the primary line followed by the extra
lines, in declared order, each once; a line is run only after the subprocess of
every earlier line has succeeded; no line with a missing argument is run; the
run returns normally exactly when every line ran and succeeded; and when a line
is left out and the shell has its two words, the first line left out has a
missing argument or the last line run failed. -/
theorem runCommand_runs_lines_in_order (isNumber : Str → Bool) (goos : Str) (w : World)
    (name : Str) (params : List Str) (cfg : GrowlYaml) (env : Env) (command : GrowlCommand)
    (hfound : lookupCommand cfg.Commands name = command) (hname : command.Name ≠ []) :
    ∃ ran notRun s0 s1,
      command.Command :: command.Extra = ran ++ notRun ∧
      (runCommand isNumber goos w (name :: params) cfg env).calls
        = ran.map (lineCall s0 s1 params (commandEnv cfg command env)) ∧
      (ran ≠ [] → ∃ more, strings.Split (resolveShell cfg goos) ' ' = s0 :: s1 :: more) ∧
      (∀ a x b, ran = a ++ x :: b → b ≠ [] →
        w ((setenvEvents cfg.GlobalEnv ++ setenvEvents command.Env)
            ++ runEvents (a.map (lineCall s0 s1 params (commandEnv cfg command env))))
          (lineCall s0 s1 params (commandEnv cfg command env) x) = none) ∧
      (∀ x ∈ ran, missingArgs isNumber (substitute x params) = []) ∧
      ((runCommand isNumber goos w (name :: params) cfg env).outcome = Outcome.returned ↔
        notRun = [] ∧
        Succeeded w (setenvEvents cfg.GlobalEnv ++ setenvEvents command.Env)
          (lineCall s0 s1 params (commandEnv cfg command env)) ran) ∧
      (notRun ≠ [] → 2 ≤ (strings.Split (resolveShell cfg goos) ' ').length →
        (∃ l rest, notRun = l :: rest ∧ missingArgs isNumber (substitute l params) ≠ []) ∨
        (∃ a l err, ran = a ++ [l] ∧
          w ((setenvEvents cfg.GlobalEnv ++ setenvEvents command.Env)
              ++ runEvents (a.map (lineCall s0 s1 params (commandEnv cfg command env))))
            (lineCall s0 s1 params (commandEnv cfg command env) l) = some err)) := by
  obtain ⟨ran, notRun, s0, s1, errs, h1, _, _, h4, h5, h6, h7⟩ :=
    runCommand_spec isNumber goos w name params cfg env command hfound hname
  refine ⟨ran, notRun, s0, s1, h1, h4, h6, ?_, h5, ?_, ?_⟩
  · intro a x b hab hb
    rcases h7 with h | ⟨_, _, _, _, _, _, h⟩ | ⟨a0, l0, _, hr, _, _, _, h⟩ | h
    · exact h.2.2.2 a x b hab
    · exact h a x b hab
    · rw [hr] at hab
      exact succeeded_init w _ _ a0 l0 h a x b hab hb
    · rw [h.2.1] at hab
      simp at hab
  · rcases h7 with h | ⟨l0, r0, hn, _, _, ho, _⟩ | ⟨a0, l0, err, hr, hw, _, ho, _⟩ | h
    · simp [h.1, h.2.2.1, h.2.2.2]
    · simp [ho, hn]
    · rw [ho]
      constructor
      · intro h
        cases h
      · intro hs
        have := hs.2 a0 l0 [] hr
        rw [hw] at this
        cases this
    · simp [h.2.2.2.2, h.2.2.1]
  · intro hn hsh
    rcases h7 with h | ⟨l0, r0, hn0, hm0, _⟩ | ⟨a0, l0, err, hr, hw, _⟩ | h
    · exact absurd h.1 hn
    · exact Or.inl ⟨l0, r0, hn0, hm0⟩
    · exact Or.inr ⟨a0, l0, err, hr, hw⟩
    · omega

/-- C3 at the command `build` with the lines `go vet` and `go build` whose
subprocesses succeed: both lines are run, in this order, and the run returns. -/
theorem runCommand_runs_lines_in_order_witness :
    ∃ ran notRun s0 s1,
      "go vet".toList :: ["go build".toList] = ran ++ notRun ∧
      (runCommand isDecimal "linux".toList (fun _ _ => none) ["build".toList]
          ⟨[], [], [⟨"build".toList, "go vet".toList, ["go build".toList], []⟩]⟩ []).calls
        = ran.map (lineCall s0 s1 [] []) ∧
      (runCommand isDecimal "linux".toList (fun _ _ => none) ["build".toList]
          ⟨[], [], [⟨"build".toList, "go vet".toList, ["go build".toList], []⟩]⟩ []).calls
        = [⟨"bash".toList, [], "-c \"go vet\"".toList, []⟩,
           ⟨"bash".toList, [], "-c \"go build\"".toList, []⟩] := by
  obtain ⟨ran, notRun, s0, s1, h1, h2, _⟩ :=
    runCommand_runs_lines_in_order isDecimal "linux".toList (fun _ _ => none) "build".toList []
      ⟨[], [], [⟨"build".toList, "go vet".toList, ["go build".toList], []⟩]⟩ []
      ⟨"build".toList, "go vet".toList, ["go build".toList], []⟩ (by decide) (by decide)
  exact ⟨ran, notRun, s0, s1, h1, h2, by decide⟩

/-- C4, as stated, fails: with a configured command whose name is empty and an
empty first argument, a configured command has the name `args[0]`, yet
`runCommand` prints the list and fails with `Command not found`, whatever
`isNumber` and the outside world are. -/
theorem runCommand_empty_name_not_found :
    (∃ c ∈ [(⟨[], "echo hi".toList, [], []⟩ : GrowlCommand)], c.Name = ([] : Str)) ∧
    (fun (isNumber : Str → Bool) (w : World) =>
      runCommand isNumber "linux".toList w [[]] ⟨[], [], [⟨[], "echo hi".toList, [], []⟩]⟩ [])
      = fun _ _ => ⟨[Event.printList [⟨[], "echo hi".toList, [], []⟩],
          Event.printErr ["Command not found".toList]], [], Outcome.fatal⟩ := by
  refine ⟨by decide, ?_⟩
  funext isNumber w
  rfl

/-- C4, amended: for every configuration and every argument list with first
argument `name`, `runCommand` prints the full command list and fails with
`Command not found`, having set no environment variable and run no command
line, if and only if no configured command has the name `name` or `name` is
empty; otherwise the command it dispatches is the first one in configuration
order whose name equals `name`. -/
theorem runCommand_not_found_iff (isNumber : Str → Bool) (goos : Str) (w : World)
    (name : Str) (params : List Str) (cfg : GrowlYaml) (env : Env) :
    (runCommand isNumber goos w (name :: params) cfg env
        = ⟨[Event.printList cfg.Commands, Event.printErr ["Command not found".toList]],
            env, Outcome.fatal⟩
      ↔ ((∀ c ∈ cfg.Commands, c.Name ≠ name) ∨ name = [])) ∧
    (¬ ((∀ c ∈ cfg.Commands, c.Name ≠ name) ∨ name = []) →
      ∃ pre command post, cfg.Commands = pre ++ command :: post ∧
        (∀ c ∈ pre, c.Name ≠ name) ∧ command.Name = name ∧
        runCommand isNumber goos w (name :: params) cfg env
          = dispatch isNumber goos w params cfg command env) := by
  have hfirst : ¬ ((∀ c ∈ cfg.Commands, c.Name ≠ name) ∨ name = []) →
      ∃ pre command post, cfg.Commands = pre ++ command :: post ∧
        (∀ c ∈ pre, c.Name ≠ name) ∧ command.Name = name ∧ command.Name ≠ [] ∧
        lookupCommand cfg.Commands name = command := by
    intro h
    have hex : ∃ c ∈ cfg.Commands, c.Name = name := by
      by_contra hne
      exact h (Or.inl (fun c hc hcn => hne ⟨c, hc, hcn⟩))
    obtain ⟨pre, command, post, h1, h2, h3, h4⟩ := lookupCommand_first cfg.Commands name hex
    exact ⟨pre, command, post, h1, h2, h3, fun h0 => h (Or.inr (h3 ▸ h0)), h4⟩
  constructor
  · constructor
    · intro hrun
      by_contra hcon
      obtain ⟨pre, command, post, _, _, _, hne, hlook⟩ := hfirst hcon
      obtain ⟨ran, notRun, s0, s1, errs, _, htr, herrs, _⟩ :=
        runCommand_spec isNumber goos w name params cfg env command hlook hne
      rw [hrun] at htr
      have hmem : Event.printList cfg.Commands ∈
          (setenvEvents cfg.GlobalEnv ++ setenvEvents command.Env)
            ++ runEvents (ran.map (lineCall s0 s1 params (commandEnv cfg command env)))
            ++ errs := by
        rw [← htr]
        simp
      simp only [List.mem_append, setenvEvents, runEvents, List.mem_map] at hmem
      rcases hmem with ((⟨_, _, h⟩ | ⟨_, _, h⟩) | ⟨_, _, h⟩) | h
      · cases h
      · cases h
      · cases h
      · rcases herrs with he | ⟨args, he⟩
        · simp [he] at h
        · simp [he] at h
    · intro h
      have hz : (lookupCommand cfg.Commands name).Name = [] := by
        rcases h with h | h
        · rw [lookupCommand_none _ _ h]
          rfl
        · by_cases hex : ∃ c ∈ cfg.Commands, c.Name = name
          · obtain ⟨_, command, _, _, _, h3, h4⟩ := lookupCommand_first cfg.Commands name hex
            rw [h4, h3, h]
          · rw [lookupCommand_none _ _ (fun c hc hcn => hex ⟨c, hc, hcn⟩)]
            rfl
      rw [runCommand_missing _ _ _ _ _ _ _ hz]
      rfl
  · intro h
    obtain ⟨pre, command, post, h1, h2, h3, hne, hlook⟩ := hfirst h
    refine ⟨pre, command, post, h1, h2, h3, ?_⟩
    simp [runCommand, hlook, hne]


/-- C5, as stated, fails: `os.Setenv` refuses some entries and `runCommand`
drops its error. A command-scoped entry named `A=B` leaves the variable `A=B`
unset, and when the last command-scoped entry named `X` has a value holding
NUL, `X` keeps the value of the entry before it. -/
theorem runCommand_setenv_refused :
    lastValue [⟨"A=B".toList, "v".toList⟩] "A=B".toList = some "v".toList ∧
    Getenv (runCommand isDecimal "windows".toList (fun _ _ => none) ["t".toList]
        ⟨[], [], [⟨"t".toList, "env".toList, [], [⟨"A=B".toList, "v".toList⟩]⟩]⟩ []).env
      "A=B".toList = [] ∧
    lastValue [⟨"X".toList, "1".toList⟩, ⟨"X".toList, ['a', NUL]⟩] "X".toList
      = some ['a', NUL] ∧
    Getenv (runCommand isDecimal "windows".toList (fun _ _ => none) ["t".toList]
        ⟨[], [], [⟨"t".toList, "env".toList, [],
          [⟨"X".toList, "1".toList⟩, ⟨"X".toList, ['a', NUL]⟩]⟩]⟩ []).env
      "X".toList = "1".toList := by
  decide

/-- C5, amended: for every configuration and found command, the environment
`runCommand` has applied when its command lines run (the setting of the
variables comes first in the trace, and every subprocess inherits the result)
gives each variable named by a command-scoped entry that `os.Setenv` accepts
(a non-empty name without `=` or NUL, a value without NUL) the value of the
last such command-scoped entry of that name, each variable named only by such
global entries the value of the last such global entry of that name, and
leaves every other variable as it was. -/
theorem runCommand_environment (isNumber : Str → Bool) (goos : Str) (w : World)
    (name : Str) (params : List Str) (cfg : GrowlYaml) (env : Env) (command : GrowlCommand)
    (hfound : lookupCommand cfg.Commands name = command) (hname : command.Name ≠ []) :
    (runCommand isNumber goos w (name :: params) cfg env).env = commandEnv cfg command env ∧
    (∃ rest, (runCommand isNumber goos w (name :: params) cfg env).trace
        = setenvEvents cfg.GlobalEnv ++ setenvEvents command.Env ++ rest ∧
      ∀ e ∈ rest, ∀ k v, e ≠ Event.setenv k v) ∧
    (∀ call ∈ (runCommand isNumber goos w (name :: params) cfg env).calls,
      call.Env = commandEnv cfg command env) ∧
    (∀ v, Getenv (commandEnv cfg command env) v =
      match lastValue (accepted command.Env) v with
      | some x => x
      | none =>
        match lastValue (accepted cfg.GlobalEnv) v with
        | some x => x
        | none => Getenv env v) := by
  obtain ⟨ran, notRun, s0, s1, errs, _, htr, herrs, hcalls, _⟩ :=
    runCommand_spec isNumber goos w name params cfg env command hfound hname
  refine ⟨?_, ⟨_, by rw [htr, List.append_assoc], ?_⟩, ?_, ?_⟩
  · rw [runCommand_found isNumber goos w name params cfg env command hfound hname]
    exact runLines_env _ _ _ _ _ _ _
  · intro e he k v hek
    subst hek
    simp only [List.mem_append, runEvents, List.mem_map] at he
    rcases he with ⟨_, _, h⟩ | h
    · cases h
    · rcases herrs with h0 | ⟨args, h0⟩
      · simp [h0] at h
      · simp [h0] at h
  · intro call hcall
    rw [hcalls] at hcall
    obtain ⟨l, _, rfl⟩ := List.mem_map.mp hcall
    rfl
  · intro v
    simp only [commandEnv]
    rw [Getenv_applyEnv, Getenv_applyEnv]
    cases lastValue (accepted command.Env) v <;>
      cases lastValue (accepted cfg.GlobalEnv) v <;> rfl

/-- The amended C5 at a configuration whose global entries set `MODE` and
`HOME`, with a command that sets `MODE` twice and has an entry without a name:
at the subprocess `MODE` is the last command-scoped value, `HOME` the global
one, `USER` is as before. -/
theorem runCommand_environment_witness :
    Getenv (runCommand isDecimal "windows".toList (fun _ _ => none) ["t".toList]
        ⟨[], [⟨"MODE".toList, "g".toList⟩, ⟨"HOME".toList, "/g".toList⟩],
          [⟨"t".toList, "env".toList, [],
            [⟨"MODE".toList, "a".toList⟩, ⟨"MODE".toList, "b".toList⟩, ⟨[], "c".toList⟩]⟩]⟩
        [("USER".toList, "u".toList), ("MODE".toList, "old".toList)]).env "MODE".toList
      = "b".toList ∧
    Getenv (commandEnv
        ⟨[], [⟨"MODE".toList, "g".toList⟩, ⟨"HOME".toList, "/g".toList⟩],
          [⟨"t".toList, "env".toList, [],
            [⟨"MODE".toList, "a".toList⟩, ⟨"MODE".toList, "b".toList⟩, ⟨[], "c".toList⟩]⟩]⟩
        ⟨"t".toList, "env".toList, [],
            [⟨"MODE".toList, "a".toList⟩, ⟨"MODE".toList, "b".toList⟩, ⟨[], "c".toList⟩]⟩
        [("USER".toList, "u".toList), ("MODE".toList, "old".toList)]) "HOME".toList
      = "/g".toList ∧
    Getenv (commandEnv
        ⟨[], [⟨"MODE".toList, "g".toList⟩, ⟨"HOME".toList, "/g".toList⟩],
          [⟨"t".toList, "env".toList, [],
            [⟨"MODE".toList, "a".toList⟩, ⟨"MODE".toList, "b".toList⟩, ⟨[], "c".toList⟩]⟩]⟩
        ⟨"t".toList, "env".toList, [],
            [⟨"MODE".toList, "a".toList⟩, ⟨"MODE".toList, "b".toList⟩, ⟨[], "c".toList⟩]⟩
        [("USER".toList, "u".toList), ("MODE".toList, "old".toList)]) "USER".toList
      = "u".toList := by
  have h := runCommand_environment isDecimal "windows".toList (fun _ _ => none) "t".toList []
    ⟨[], [⟨"MODE".toList, "g".toList⟩, ⟨"HOME".toList, "/g".toList⟩],
      [⟨"t".toList, "env".toList, [],
        [⟨"MODE".toList, "a".toList⟩, ⟨"MODE".toList, "b".toList⟩, ⟨[], "c".toList⟩]⟩]⟩
    [("USER".toList, "u".toList), ("MODE".toList, "old".toList)]
    ⟨"t".toList, "env".toList, [],
      [⟨"MODE".toList, "a".toList⟩, ⟨"MODE".toList, "b".toList⟩, ⟨[], "c".toList⟩]⟩
    (by decide) (by decide)
  refine ⟨?_, ?_, ?_⟩
  · rw [h.1, h.2.2.2]
    decide
  · rw [h.2.2.2]
    decide
  · rw [h.2.2.2]
    decide

/-- C6: for every configuration and every host operating system that the
switch of lines 38-43 provides for (`windows`, `linux`, `darwin`; `main.go`
itself builds for `windows` only, since line 65 sets `SysProcAttr.CmdLine`), the
shell `runCommand` uses is the configuration's `shell` value whenever that
value is non-empty; otherwise it is `cmd /C` on a Windows host and `bash -c` on
any other host; and every subprocess `runCommand` starts has the first word of
that shell as its program and a command line that starts with its second
word. -/
theorem runCommand_shell (cfg : GrowlYaml) (goos : Str)
    (hhost : goos = "windows".toList ∨ goos = "linux".toList ∨ goos = "darwin".toList) :
    resolveShell cfg goos
      = (if cfg.Shell ≠ [] then cfg.Shell
         else if goos = "windows".toList then "cmd /C".toList else "bash -c".toList) ∧
    (∀ (isNumber : Str → Bool) (w : World) (name : Str) (params : List Str) (env : Env),
      ∀ call ∈ (runCommand isNumber goos w (name :: params) cfg env).calls,
        ∃ s1 more cmd, strings.Split (resolveShell cfg goos) ' ' = call.Path :: s1 :: more ∧
          call.CmdLine = s1 ++ " \"".toList ++ cmd ++ "\"".toList) := by
  constructor
  · by_cases h : cfg.Shell = []
    · rcases hhost with hg | hg | hg <;> subst hg <;> simp only [resolveShell, h] <;> decide
    · simp [resolveShell, h]
  · intro isNumber w name params env call hcall
    by_cases hz : (lookupCommand cfg.Commands name).Name = []
    · rw [runCommand_missing _ _ _ _ _ _ _ hz] at hcall
      simp [Result.calls, printErr, callsOf] at hcall
    · obtain ⟨ran, notRun, s0, s1, errs, _, _, _, hcalls, _, hsh, _⟩ :=
        runCommand_spec isNumber goos w name params cfg env _ rfl hz
      rw [hcalls] at hcall
      obtain ⟨l, hl, rfl⟩ := List.mem_map.mp hcall
      obtain ⟨more, hmore⟩ := hsh (List.ne_nil_of_mem hl)
      exact ⟨s1, more, substitute l params, hmore, rfl⟩

/-- C6 on a Windows host: without a configured shell the shell is `cmd /C`,
with the configured shell `powershell -Command` it is that one. -/
theorem runCommand_shell_witness :
    resolveShell ⟨[], [], []⟩ "windows".toList = "cmd /C".toList ∧
    resolveShell ⟨"powershell -Command".toList, [], []⟩ "windows".toList
      = "powershell -Command".toList := by
  have h1 := (runCommand_shell ⟨[], [], []⟩ "windows".toList (Or.inl rfl)).1
  have h2 := (runCommand_shell ⟨"powershell -Command".toList, [], []⟩ "windows".toList
    (Or.inl rfl)).1
  refine ⟨?_, ?_⟩
  · rw [h1]
    decide
  · rw [h2]
    decide

/-- C10, as stated, fails, and by a defect of the code: with the configured
shell `powershell` (one word) on a Windows host, and with no configured shell
on a `freebsd` host, the shell splits into a single element, and `runCommand`
for a configured command ends in the index-out-of-range panic of `shellArgs[1]`
without running the line, whatever `isNumber` and the outside world are. -/
theorem runCommand_shell_index_panic :
    strings.Split (resolveShell ⟨"powershell".toList, [], []⟩ "windows".toList) ' '
      = ["powershell".toList] ∧
    (fun (isNumber : Str → Bool) (w : World) =>
      runCommand isNumber "windows".toList w ["build".toList]
        ⟨"powershell".toList, [], [⟨"build".toList, "go build".toList, [], []⟩]⟩ [])
      = (fun _ _ => ⟨[], [], Outcome.panicked⟩) ∧
    strings.Split (resolveShell ⟨[], [], []⟩ "freebsd".toList) ' ' = [[]] ∧
    (fun (isNumber : Str → Bool) (w : World) =>
      runCommand isNumber "freebsd".toList w ["build".toList]
        ⟨[], [], [⟨"build".toList, "go build".toList, [], []⟩]⟩ [])
      = (fun _ _ => ⟨[], [], Outcome.panicked⟩) := by
  refine ⟨by decide, ?_, by decide, ?_⟩
  · funext isNumber w
    rfl
  · funext isNumber w
    rfl

/-! ## The properties of the specification: `main` -/

/-- C7, as stated, fails, and by a defect of the code: `main` never looks at
the error of `yaml.Unmarshal`. Whatever the content of `growl.yaml` and
whatever `yaml.Unmarshal` reports for it, `growl list` prints the list of
whatever configuration was decoded and returns normally, and `growl` without
arguments starts the default build `go run .`. Only an absent file is fatal:
then every invocation other than `init` ends with the message of line 138 and
nothing else. -/
theorem main_ignores_unmarshal_error (d : Deps) (w : World) (content : Str) (env : Env) :
    main d w ["growl".toList, "list".toList] (some content) env
      = ⟨[Event.printList (d.Unmarshal content).1.Commands], env, Outcome.returned⟩ ∧
    (main d w ["growl".toList] (some content) env).calls
      = [⟨"go".toList, ["run".toList, ".".toList], [], env⟩] ∧
    (∀ osArgs : List Str, ¬ (osArgs.length > 1 ∧ osArgs.tail.head? = some "init".toList) →
      main d w osArgs none env
        = ⟨[Event.printErr ["Growl.yaml not found. Generate one with growl init".toList]],
            env, Outcome.fatal⟩) := by
  refine ⟨?_, ?_, ?_⟩
  · have h1 : ¬ ((["growl".toList, "list".toList] : List Str).length > 1 ∧
        (["growl".toList, "list".toList] : List Str).tail.head? = some "init".toList) := by
      decide
    simp only [main, h1, if_false, appRun, List.drop_one, List.tail_cons]
    simp
  · have h1 : ¬ ((["growl".toList] : List Str).length > 1 ∧
        (["growl".toList] : List Str).tail.head? = some "init".toList) := by
      decide
    simp only [main, h1, if_false, appRun, List.drop_one, List.tail_cons, appAction]
    cases hw : w [] ⟨"go".toList, ["run".toList, ".".toList], [], env⟩ <;>
      simp [hw, Result.calls, callsOf, printErr]
  · intro osArgs h
    simp only [main, h, if_false]
    rfl

/-! ## The properties of the specification: `crossCompile` -/

theorem dropWhile_replicate (s : Str) (c : Char) :
    ∃ n, s = List.replicate n c ++ s.dropWhile (fun x => x == c) := by
  induction s with
  | nil => exact ⟨0, rfl⟩
  | cons x t ih =>
    by_cases hx : x = c
    · obtain ⟨n, hn⟩ := ih
      refine ⟨n + 1, ?_⟩
      subst hx
      simp only [List.dropWhile_cons, beq_self_eq_true, if_true, List.replicate_succ,
        List.cons_append]
      rw [← hn]
    · refine ⟨0, ?_⟩
      have : (x == c) = false := by simpa using hx
      simp [List.dropWhile_cons, this]

theorem head_dropWhile (s : Str) (c : Char) :
    (s.dropWhile (fun x => x == c)).head? ≠ some c := by
  induction s with
  | nil => simp
  | cons x t ih =>
    by_cases hx : x = c
    · subst hx
      simpa [List.dropWhile_cons] using ih
    · have : (x == c) = false := by simpa using hx
      simp [List.dropWhile_cons, this, hx]

/-- `strings.Trim` with a cutset of one character removes a run of it at each
end, and what is left neither starts nor ends with it. -/
theorem Trim_spec (s : Str) (c : Char) :
    (∃ m n, s = List.replicate m c ++ strings.Trim s c ++ List.replicate n c) ∧
    (strings.Trim s c).head? ≠ some c ∧ (strings.Trim s c).getLast? ≠ some c := by
  obtain ⟨m, hm⟩ := dropWhile_replicate s c
  obtain ⟨n, hn⟩ := dropWhile_replicate (s.dropWhile (fun x => x == c)).reverse c
  have hn' : s.dropWhile (fun x => x == c) = strings.Trim s c ++ List.replicate n c := by
    have := congrArg List.reverse hn
    simpa [strings.Trim] using this
  have hlast : (strings.Trim s c).getLast? ≠ some c := by
    simp only [strings.Trim, List.getLast?_reverse]
    exact head_dropWhile _ c
  refine ⟨⟨m, n, ?_⟩, ?_, hlast⟩
  · rw [List.append_assoc, ← hn']
    exact hm
  · have hhead := head_dropWhile s c
    rw [hn'] at hhead
    cases ht : strings.Trim s c with
    | nil => simp
    | cons x t =>
      rw [ht] at hhead
      simpa using hhead

theorem setenvOk_value (name value : Str) (hn : setenvOk name [] = true)
    (hv : NUL ∉ value) : setenvOk name value = true := by
  simp only [setenvOk, Bool.and_eq_true, Bool.not_eq_true', List.contains_eq_any_beq,
    List.any_eq_false, List.any_nil, Bool.not_false, and_true] at hn ⊢
  refine ⟨hn, ?_⟩
  intro x hx
  by_cases hxn : x = NUL
  · exact absurd (hxn ▸ hx) hv
  · simpa using fun h : NUL = x => hxn h.symm

theorem Getenv_Setenv_same (env : Env) (k val : Str) (h : setenvOk k val = true) :
    Getenv (Setenv env k val) k = val := by
  rw [Getenv_Setenv, if_pos ⟨h, rfl⟩]

theorem Getenv_Setenv_other (env : Env) (k val v : Str) (h : k ≠ v) :
    Getenv (Setenv env k val) v = Getenv env v := by
  rw [Getenv_Setenv, if_neg (fun hh => h hh.2)]

theorem crossCompile_calls (w : World) (f : CrossFlags) (rest : List Str) (env : Env) :
    (crossCompile w f rest env).calls =
      [⟨"go".toList,
        ["build".toList, "-ldflags=".toList ++ linkFlags f,
          "-o=".toList ++ outputPath f
            (if f.cgo then
              Setenv (Setenv (Setenv env "GOOS".toList f.os) "GOARCH".toList f.arch)
                "CGO_ENABLED".toList "1".toList
             else Setenv (Setenv env "GOOS".toList f.os) "GOARCH".toList f.arch)] ++ rest,
        [],
        if f.cgo then
          Setenv (Setenv (Setenv env "GOOS".toList f.os) "GOARCH".toList f.arch)
            "CGO_ENABLED".toList "1".toList
        else Setenv (Setenv env "GOOS".toList f.os) "GOARCH".toList f.arch⟩] := by
  simp only [crossCompile, Result.calls]
  split <;> cases f.cgo <;> simp [callsOf, println]

/-- C8: for every `ldflags` string and every combination of the flags, the
build of `crossCompile` gets, as `-ldflags=`, the string `ld` that is the
`ldflags` value followed by ` -extldflags=-static` when `static` is set, then
` -w -s` when `light` is set, then ` -H=windowsgui` when `noconsole` is set,
with the spaces at both ends removed (`ld` neither starts nor ends with a
space and differs from that string by spaces at the ends only); with `static`
and `light` set, `noconsole` unset and empty `ldflags` it is
`-extldflags=-static -w -s`. -/
theorem crossCompile_link_flags (w : World) (f : CrossFlags) (rest : List Str) (env : Env) :
    ∃ call ld,
      (crossCompile w f rest env).calls = [call] ∧
      call.Path = "go".toList ∧
      call.Args.take 2 = ["build".toList, "-ldflags=".toList ++ ld] ∧
      (∃ m n, f.ldflags
          ++ (if f.static then " -extldflags=-static".toList else [])
          ++ (if f.light then " -w -s".toList else [])
          ++ (if f.noconsole then " -H=windowsgui".toList else [])
        = List.replicate m ' ' ++ ld ++ List.replicate n ' ') ∧
      ld.head? ≠ some ' ' ∧ ld.getLast? ≠ some ' ' ∧
      (f.ldflags = [] → f.static = true → f.light = true → f.noconsole = false →
        ld = "-extldflags=-static -w -s".toList) := by
  refine ⟨_, linkFlags f, crossCompile_calls w f rest env, rfl, rfl, ?_, ?_, ?_, ?_⟩
  · have hraw : linkFlags f = strings.Trim (f.ldflags
          ++ (if f.static then " -extldflags=-static".toList else [])
          ++ (if f.light then " -w -s".toList else [])
          ++ (if f.noconsole then " -H=windowsgui".toList else [])) ' ' := by
      simp only [linkFlags]
      cases f.static <;> cases f.light <;> cases f.noconsole <;> simp
    rw [hraw]
    exact (Trim_spec _ ' ').1
  · have hraw : linkFlags f = strings.Trim (f.ldflags
          ++ (if f.static then " -extldflags=-static".toList else [])
          ++ (if f.light then " -w -s".toList else [])
          ++ (if f.noconsole then " -H=windowsgui".toList else [])) ' ' := by
      simp only [linkFlags]
      cases f.static <;> cases f.light <;> cases f.noconsole <;> simp
    rw [hraw]
    exact (Trim_spec _ ' ').2.1
  · have hraw : linkFlags f = strings.Trim (f.ldflags
          ++ (if f.static then " -extldflags=-static".toList else [])
          ++ (if f.light then " -w -s".toList else [])
          ++ (if f.noconsole then " -H=windowsgui".toList else [])) ' ' := by
      simp only [linkFlags]
      cases f.static <;> cases f.light <;> cases f.noconsole <;> simp
    rw [hraw]
    exact (Trim_spec _ ' ').2.2
  · intro h1 h2 h3 h4
    simp only [linkFlags, h1, h2, h3, h4]
    decide

/-- C9: for every target `os` and `arch` flag value, when `out` is empty the
output path the build of `crossCompile` gets as `-o=` is `bin/<os>-<arch>`,
with `.exe` appended exactly when the target `os` is `windows`. -/
theorem crossCompile_default_output (w : World) (f : CrossFlags) (rest : List Str) (env : Env)
    (hout : f.out = []) :
    ∃ call,
      (crossCompile w f rest env).calls = [call] ∧
      call.Args.drop 2 =
        ("-o=".toList ++ ("bin/".toList ++ f.os ++ "-".toList ++ f.arch
          ++ (if f.os = "windows".toList then ".exe".toList else []))) :: rest := by
  refine ⟨_, crossCompile_calls w f rest env, ?_⟩
  have hne1 : "GOARCH".toList ≠ "GOOS".toList := by decide
  have hne2 : "CGO_ENABLED".toList ≠ "GOOS".toList := by decide
  have hne3 : "CGO_ENABLED".toList ≠ "GOARCH".toList := by decide
  have hok1 : setenvOk "GOOS".toList f.os = true :=
    setenvOk_value _ _ (by decide) f.os_ok
  have hok2 : setenvOk "GOARCH".toList f.arch = true :=
    setenvOk_value _ _ (by decide) f.arch_ok
  have hos : Getenv (if f.cgo then
        Setenv (Setenv (Setenv env "GOOS".toList f.os) "GOARCH".toList f.arch)
          "CGO_ENABLED".toList "1".toList
      else Setenv (Setenv env "GOOS".toList f.os) "GOARCH".toList f.arch) "GOOS".toList
      = f.os := by
    cases f.cgo
    · rw [if_neg (by decide), Getenv_Setenv_other _ _ _ _ hne1, Getenv_Setenv_same _ _ _ hok1]
    · rw [if_pos rfl, Getenv_Setenv_other _ _ _ _ hne2, Getenv_Setenv_other _ _ _ _ hne1,
        Getenv_Setenv_same _ _ _ hok1]
  have harch : Getenv (if f.cgo then
        Setenv (Setenv (Setenv env "GOOS".toList f.os) "GOARCH".toList f.arch)
          "CGO_ENABLED".toList "1".toList
      else Setenv (Setenv env "GOOS".toList f.os) "GOARCH".toList f.arch) "GOARCH".toList
      = f.arch := by
    cases f.cgo
    · rw [if_neg (by decide), Getenv_Setenv_same _ _ _ hok2]
    · rw [if_pos rfl, Getenv_Setenv_other _ _ _ _ hne3, Getenv_Setenv_same _ _ _ hok2]
  simp only [outputPath, hos, harch, hout, if_true]
  by_cases hw : f.os = "windows".toList
  · simp [hw]
  · rw [if_neg hw, if_neg hw]
    simp

/-- C9 at the target `windows`/`amd64` and at the target `linux`/`arm64`. -/
theorem crossCompile_default_output_witness :
    (∃ call,
      (crossCompile (fun _ _ => none)
          ⟨"windows".toList, "amd64".toList, [], [], false, false, false, false,
            by decide, by decide⟩ [] []).calls
        = [call] ∧
      call.Args.drop 2 = ["-o=bin/windows-amd64.exe".toList]) ∧
    (∃ call,
      (crossCompile (fun _ _ => none)
          ⟨"linux".toList, "arm64".toList, [], [], false, false, false, true,
            by decide, by decide⟩ [] []).calls
        = [call] ∧
      call.Args.drop 2 = ["-o=bin/linux-arm64".toList]) := by
  constructor
  · obtain ⟨call, h1, h2⟩ := crossCompile_default_output (fun _ _ => none)
      ⟨"windows".toList, "amd64".toList, [], [], false, false, false, false,
            by decide, by decide⟩ [] [] rfl
    exact ⟨call, h1, by rw [h2]; decide⟩
  · obtain ⟨call, h1, h2⟩ := crossCompile_default_output (fun _ _ => none)
      ⟨"linux".toList, "arm64".toList, [], [], false, false, false, true,
            by decide, by decide⟩ [] [] rfl
    exact ⟨call, h1, by rw [h2]; decide⟩

end Growl
